import Mathlib

/-!
# Deduce: an asynchronous variable resolution engine (`src/deduce.js`)

A shallow embedding of the resolution engine and a verification of its
specification.

## Modelling conventions

* `Value` is the universe of JavaScript values the engine looks at.  Numbers are
  integers of at most fifteen significant digits (the engine never computes
  with them).  An `Error` instance is identified by its message.
* Property lookup `target[key]` reads the own properties of a container and then
  its prototype.  An object is a plain object, whose prototype is
  `Object.prototype`; the prototype of an array is `Array.prototype`.  The
  prototypes are the built-in ones of the language, with the members of its
  current edition, and the program has added nothing to them.
* A function is described by what it does when it is called: it calls its first
  argument (the completion callback) once with two arguments, it throws, or it
  returns a value without calling anything.  A one-argument call `complete(v)`
  is `complete(v, undefined)`.  Functions that read or change the run they are
  given are not part of the model.
* `process.nextTick` is a first-in first-out queue of deferred steps (`pending`).
  The event emitter is the log of the notifications it was asked to emit
  (`emitted`).  An exception that leaves a deferred step is an uncaught
  exception of the host (`thrown`); the host runs no further step after it.
* The backtrace chain stores the targets; the `context` field of an entry is the
  run itself.
* A descriptor that brings its own `arg` / `unarg` functions is not part of the
  model: the cursor operations are always the two the engine attaches.
-/

namespace Deduce

/-! ## Values -/

mutual
/-- JavaScript values. -/
inductive Value where
  | undefined
  | null
  | bool (b : Bool)
  | num (n : Int)
  | str (s : String)
  | obj (props : List (String × Value))
  | arr (elems : List Value)
  | error (message : String)
  | fn (f : Fn)
/-- The behaviour of a function when it is called. -/
inductive Fn where
  /-- Calls its first argument with `(target, alt)`. -/
  | complete (target alt : Value)
  /-- Throws `x` synchronously. -/
  | throws (x : Value)
  /-- Returns `v` and calls nothing. -/
  | returns (v : Value)
end

instance : Inhabited Value := ⟨Value.undefined⟩

/-- The `typeof` operator. -/
def typeOf : Value → String
  | .undefined => "undefined"
  | .null => "object"
  | .bool _ => "boolean"
  | .num _ => "number"
  | .str _ => "string"
  | .obj _ => "object"
  | .arr _ => "object"
  | .error _ => "object"
  | .fn _ => "function"

/-- The test `v instanceof Error`. -/
def instanceofError : Value → Bool
  | .error _ => true
  | _ => false

/-- The test `v instanceof Array`. -/
def instanceofArray : Value → Bool
  | .arr _ => true
  | _ => false

/-- The `TypeError` the language raises when a property of `null` or `undefined`
is read, or when something that is not a function is called. -/
def typeError : Value := .error "TypeError"

/-- Reading a run of decimal digits as a number, `acc` being the value of the
digits read so far. -/
def parseDigits : List Char → Nat → Option Nat
  | [], acc => some acc
  | c :: cs, acc =>
    if c.isDigit then parseDigits cs (10 * acc + (c.toNat - 48)) else none

/-- The array index a property key denotes: the key has to be the decimal
spelling of a number, without a leading zero. -/
def parseIndex (key : String) : Option Nat :=
  match key.data with
  | [] => none
  | [c] => parseDigits [c] 0
  | c :: cs => if c = '0' then none else parseDigits (c :: cs) 0

/-- The element of an array at a property key. -/
def arrayIndex (elems : List Value) (key : String) : Value :=
  match parseIndex key with
  | some i => elems.getD i .undefined
  | none => .undefined

/-- A built-in function that returns without calling its first argument and
without throwing: `Object`, `Array` and `Object.prototype.toString` do so when
they are called with the completion callback.  The engine drops what they
return. -/
def nativeReturning : Value := .fn (.returns .undefined)

/-- A built-in method that converts `this` to an object before anything else.
Called the way the engine calls a function, without a `this`, it throws a
`TypeError`. -/
def nativeMethod : Value := .fn (.throws typeError)

/-- The members of `Object.prototype` other than `__proto__`. -/
def objectPrototypeMembers : List (String × Value) :=
  [("constructor", nativeReturning), ("toString", nativeReturning),
   ("toLocaleString", nativeMethod), ("valueOf", nativeMethod),
   ("hasOwnProperty", nativeMethod), ("isPrototypeOf", nativeMethod),
   ("propertyIsEnumerable", nativeMethod),
   ("__defineGetter__", nativeMethod), ("__defineSetter__", nativeMethod),
   ("__lookupGetter__", nativeMethod), ("__lookupSetter__", nativeMethod)]

/-- The members of `Array.prototype` other than `length` and `__proto__`. -/
def arrayPrototypeMembers : List (String × Value) :=
  [("constructor", nativeReturning), ("toString", nativeMethod),
   ("toLocaleString", nativeMethod), ("join", nativeMethod), ("pop", nativeMethod),
   ("push", nativeMethod), ("concat", nativeMethod), ("reverse", nativeMethod),
   ("shift", nativeMethod), ("unshift", nativeMethod), ("slice", nativeMethod),
   ("splice", nativeMethod), ("sort", nativeMethod), ("filter", nativeMethod),
   ("forEach", nativeMethod), ("some", nativeMethod), ("every", nativeMethod),
   ("map", nativeMethod), ("indexOf", nativeMethod), ("lastIndexOf", nativeMethod),
   ("reduce", nativeMethod), ("reduceRight", nativeMethod),
   ("at", nativeMethod), ("copyWithin", nativeMethod), ("entries", nativeMethod),
   ("fill", nativeMethod), ("find", nativeMethod), ("findIndex", nativeMethod),
   ("findLast", nativeMethod), ("findLastIndex", nativeMethod), ("flat", nativeMethod),
   ("flatMap", nativeMethod), ("includes", nativeMethod), ("keys", nativeMethod),
   ("values", nativeMethod), ("toReversed", nativeMethod), ("toSorted", nativeMethod),
   ("toSpliced", nativeMethod), ("with", nativeMethod)]

/-- The object `Object.prototype`: its members, and `null` for its own
prototype. -/
def objectPrototype : Value :=
  .obj (objectPrototypeMembers ++ [("__proto__", .null)])

/-- The object `Array.prototype`: an empty array with the array methods, whose
prototype is `Object.prototype`.  It is not an instance of `Array`. -/
def arrayPrototype : Value :=
  .obj (("length", .num 0) :: arrayPrototypeMembers ++ [("__proto__", objectPrototype)])

/-- What an object answers for a key it does not own: the member of
`Object.prototype`, which `__proto__` names itself. -/
def objectPrototypeMember (key : String) : Value :=
  if key = "__proto__" then objectPrototype
  else (objectPrototypeMembers.lookup key).getD .undefined

/-- What an array answers for a key it does not own: the member of
`Array.prototype` or, behind it, of `Object.prototype`. -/
def arrayPrototypeMember (key : String) : Value :=
  if key = "__proto__" then arrayPrototype
  else
    match arrayPrototypeMembers.lookup key with
    | some member => member
    | none => (objectPrototypeMembers.lookup key).getD .undefined

/-- A key that a container answers from its prototype when it does not own
it: the name of a member of `Object.prototype` or of `Array.prototype`. -/
def inheritedName (key : String) : Bool :=
  key == "__proto__" || (objectPrototypeMembers.lookup key).isSome
    || (arrayPrototypeMembers.lookup key).isSome

/-- Property read `target[key]`.  Reading a property of `null` or `undefined`
throws.  Objects answer with their own property of that name, arrays with an
element or their `length`; for a key they do not own both answer with the
member of their prototype, and a property missing there too is `undefined`.  Of
the other values the engine reads only `path`, `error`, `arg`, `unarg` and the
two reserved names, none of which they own or inherit. -/
def getProp (target : Value) (key : String) : Except Value Value :=
  match target with
  | .undefined => .error typeError
  | .null => .error typeError
  | .obj props =>
    .ok (match props.lookup key with
      | some v => v
      | none => objectPrototypeMember key)
  | .arr elems =>
    .ok (if key = "length" then .num elems.length
      else
        match parseIndex key with
        | some _ => arrayIndex elems key
        | none => arrayPrototypeMember key)
  | _ => .ok .undefined

/-- The text of a number: its decimal digits, and from `1e21` on the
exponent form, the digits before the trailing zeros with a point after the first
one, then `e+` and the exponent. -/
def numberKey (n : Int) : String :=
  let digits := (toString n.natAbs).data
  if digits.length ≤ 21 then toString n
  else
    let mantissa :=
      match (digits.reverse.dropWhile (fun c => c == '0')).reverse with
      | [] => ""
      | [d] => String.mk [d]
      | d :: ds => String.mk (d :: '.' :: ds)
    (if n < 0 then "-" else "") ++ mantissa ++ "e+" ++ toString (digits.length - 1)

/-- The text of an `Error` instance: its name, followed by the message unless
that is empty. -/
def errorKey (message : String) : String :=
  if message = "" then "Error" else "Error: " ++ message

mutual
/-- The property key a value used as a path segment is converted to.  A
function converts to its source text, which the model does not carry; one fixed
key stands for it. -/
def toPropertyKey : Value → String
  | .undefined => "undefined"
  | .null => "null"
  | .bool b => if b then "true" else "false"
  | .num n => numberKey n
  | .str s => s
  | .obj _ => "[object Object]"
  | .arr elems => joinKeys elems
  | .error message => errorKey message
  | .fn _ => "function"
/-- The text of `Array.prototype.join` with the default separator. -/
def joinKeys : List Value → String
  | [] => ""
  | [v] => elementKey v
  | v :: rest => elementKey v ++ "," ++ joinKeys rest
/-- The text of one array element inside a join: `null` and `undefined` are empty. -/
def elementKey : Value → String
  | .undefined => ""
  | .null => ""
  | .bool b => if b then "true" else "false"
  | .num n => numberKey n
  | .str s => s
  | .obj _ => "[object Object]"
  | .arr elems => joinKeys elems
  | .error message => errorKey message
  | .fn _ => "function"
end

/-! ## Strings -/

/-- Splitting a character sequence at every occurrence of `sep`. -/
def splitChars (sep : Char) : List Char → List (List Char)
  | [] => [[]]
  | c :: cs =>
    if c = sep then [] :: splitChars sep cs
    else
      match splitChars sep cs with
      | [] => [[c]]
      | seg :: segs => (c :: seg) :: segs

/-- The method `String.prototype.split` with a one-character separator. -/
def split (s : String) (sep : Char) : List String :=
  (splitChars sep s.data).map String.mk

/-! ## The run -/

/-- Object index property name. -/
def IndexPropertyName : String := "$index"

/-- Error handler property name. -/
def ErrorPropertyName : String := "$error"

/-- Context Path Not Array Error. -/
def PathNotArrayError : Value := .error "Whoa, context.path is not an Array"

/-- Not Found Error. -/
def NotFoundError : Value := .error "Path could not be resolved on target."

/-- The run descriptor once `resolve` has accepted it: `context.path`,
`context.chain` (the targets of its entries) and `context.error`. -/
structure Context where
  path : List Value
  chain : List Value
  error : Value

/-- A notification given to the event emitter: `emit(name, arg)`. -/
structure Event where
  name : String
  arg : Value

/-- One run: its context, the steps deferred with `process.nextTick` and not
yet executed, the notifications emitted so far, and the exception that left a
deferred step, if one did. -/
structure Run where
  context : Context
  pending : List Value
  emitted : List Event
  thrown : Option Value

/-- The call `context.events.emit(name, arg)`. -/
def emit (name : String) (arg : Value) (r : Run) : Run :=
  { r with emitted := r.emitted ++ [⟨name, arg⟩] }

/-- The statement `throw x` inside a deferred step. -/
def raise (x : Value) (r : Run) : Run :=
  { r with thrown := some x }

/-- Context argument function: `context.path.shift()`. -/
def contextArg (c : Context) : Value × Context :=
  match c.path with
  | [] => (.undefined, c)
  | segment :: rest => (segment, { c with path := rest })

/-- Context restore argument function: `context.path.unshift(segment)`. -/
def contextUnArg (segment : Value) (c : Context) : Context :=
  { c with path := segment :: c.path }

/-- Resolve on next tick: the step is deferred. -/
def resolveNextTickGenerator (target : Value) (r : Run) : Run :=
  { r with pending := r.pending ++ [target] }

/-- Test for a void segment, indicating the end of the chain:
`v === null || typeof v == 'undefined' || v === false`. -/
def testVoidVariable : Value → Bool
  | .null => true
  | .undefined => true
  | .bool false => true
  | _ => false

/-- The same function under its second name. -/
def testVoidSegment : Value → Bool := testVoidVariable

/-- The loop of `resolveError`: `n` is `i + 1` for the loop variable `i`, which
runs from `chain.length - 1` down to `0`. -/
def resolveErrorLoop (err : Value) (r : Run) : Nat → Run
  | 0 => emit "error" err r
  | i + 1 =>
    let target := r.context.chain.getD i .undefined
    if typeOf target = "undefined" then resolveErrorLoop err r i
    else
      match getProp target ErrorPropertyName with
      | .error e => raise e r
      | .ok handler =>
        if testVoidVariable handler then resolveErrorLoop err r i
        else resolveNextTickGenerator handler r

/-- Resolve to the deepest error handler possible. -/
def resolveError (err : Value) (r : Run) : Run :=
  if typeOf r.context.error = "object" then raise err r
  else
    let r := { r with context := { r.context with error := err } }
    resolveErrorLoop err r r.context.chain.length

/-- Provide an answer or handle error. -/
def answer (target : Value) (r : Run) : Run :=
  if instanceofError target then resolveError target r
  else emit "end" target r

/-- If we reached a string or number, we are done. -/
def resolveStringOrNumber (target : Value) (r : Run) : Run :=
  answer target r

/-- The function callback closure. -/
def resolveFunctionCallback (target alt : Value) (r : Run) : Run :=
  let target := match target with
    | .null => alt
    | _ => target
  resolveNextTickGenerator target r

/-- Evaluate functions asynchronously. -/
def resolveFunction (target : Value) (r : Run) : Run :=
  match target with
  | .fn (.complete t alt) => resolveFunctionCallback t alt r
  | .fn (.throws err) => answer err r
  | .fn (.returns _) => r
  | _ => answer typeError r

/-- Resolve objects and arrays. -/
def resolveObjectOrArray (target : Value) (r : Run) : Run :=
  let segment := (contextArg r.context).1
  let r := { r with context := (contextArg r.context).2 }
  if instanceofError target || testVoidSegment segment then answer target r
  else
    match getProp target (toPropertyKey segment) with
    | .error e => raise e r
    | .ok child =>
      if !testVoidVariable child then resolveNextTickGenerator child r
      else
        let r := { r with context := contextUnArg segment r.context }
        match getProp target IndexPropertyName with
        | .error e => raise e r
        | .ok index =>
          if !testVoidVariable index then resolveNextTickGenerator index r
          else answer NotFoundError r

/-- Choose the function to resolve: the member of the module named `resolve`
followed by the capitalised type name.  The module has five such members. -/
def resolveType (type : String) : Option (Value → Run → Run) :=
  if type = "string" then some resolveStringOrNumber
  else if type = "number" then some resolveStringOrNumber
  else if type = "function" then some resolveFunction
  else if type = "object" then some resolveObjectOrArray
  else if type = "array" then some resolveObjectOrArray
  else none

/-- The deferred step itself: save to the deduction chain, then dispatch on the
type.  Calling a member the module does not have throws. -/
def resolveNextTick (target : Value) (r : Run) : Run :=
  let r := { r with context := { r.context with chain := r.context.chain ++ [target] } }
  match resolveType (typeOf target) with
  | some f => f target r
  | none => raise typeError r

/-- One turn of the host scheduler: the oldest deferred step runs. -/
def tick (r : Run) : Run :=
  match r.thrown with
  | some _ => r
  | none =>
    match r.pending with
    | [] => r
    | target :: rest => resolveNextTick target { r with pending := rest }

/-- Turns of the host scheduler, `n` of them. -/
def ticks : Nat → Run → Run
  | 0, r => r
  | n + 1, r => ticks n (tick r)

/-- Create context if needed: the cases of the `switch` other than `'function'`. -/
def createContext (context : Value) : Value :=
  if typeOf context = "object" then context
  else if typeOf context = "array" then .obj [("path", context)]
  else if typeOf context = "string" then
    match context with
    | .str s =>
      let segments := split s '/'
      let segments := if segments.head? = some "" then segments.tail else segments
      .obj [("path", .arr (segments.map .str))]
    | _ => .obj []
  else .obj []

/-- The run `resolve` starts once the path is known to be an array. -/
def startRun (target : Value) (path : List Value) (error : Value) : Run :=
  resolveNextTickGenerator target
    { context := { path := path, chain := [], error := error },
      pending := [], emitted := [], thrown := none }

/-- Main entry point, pass a context or path.  The result is the exception the
call throws, or the run it has started. -/
def resolve (target : Value) : Value → Except Value Run
  | .fn (.returns context) => resolve target context
  | .fn (.throws x) => .error x
  | .fn (.complete _ _) => .error typeError
  | context =>
    let context := createContext context
    match getProp context "path" with
    | .error e => .error e
    | .ok path =>
      match path with
      | .arr segments =>
        match getProp context "error" with
        | .error e => .error e
        | .ok error => .ok (startRun target segments error)
      | _ => .error PathNotArrayError

/-! ## Vocabulary of the specification -/

/-- A container: an object or an array. -/
def isContainer : Value → Bool
  | .obj _ => true
  | .arr _ => true
  | _ => false

/-- A leaf: a string or a number. -/
def isLeaf : Value → Bool
  | .str _ => true
  | .num _ => true
  | _ => false

mutual
/-- A finite tree made only of containers and string or number leaves in which
no container has a `$index` or a `$error` key. -/
def plain : Value → Bool
  | .str _ => true
  | .num _ => true
  | .obj props => plainProps props
  | .arr elems => plainList elems
  | _ => false
/-- The properties of a plain object: no reserved key, plain values. -/
def plainProps : List (String × Value) → Bool
  | [] => true
  | (k, v) :: rest =>
    k != IndexPropertyName && k != ErrorPropertyName && plain v && plainProps rest
/-- The elements of a plain array. -/
def plainList : List Value → Bool
  | [] => true
  | v :: rest => plain v && plainList rest
end

/-- The plain nested lookup of the specification: walk the segments from the
root, stop at the first string or number reached or when the path is exhausted,
and answer with that leaf or that container; there is no answer (`none`, the
NotFound failure) when a segment is missing at a container reached on the way. -/
def nestedLookup : Value → List String → Option Value
  | v, [] => some v
  | v, s :: rest =>
    if isLeaf v then some v
    else
      match getProp v s with
      | .ok child => if testVoidVariable child then none else nestedLookup child rest
      | .error _ => none

/-- The notification the specification expects for the result of a nested
lookup: success with the value found, failure with `NotFoundError`. -/
def lookupEvent : Option Value → Event
  | some v => ⟨"end", v⟩
  | none => ⟨"error", NotFoundError⟩

/-- The non-void `$error` value a visited value exposes, if it exposes one. -/
def exposedHandler (v : Value) : Option Value :=
  match getProp v ErrorPropertyName with
  | .ok handler => if testVoidVariable handler then none else some handler
  | .error _ => none

/-- A path none of whose segments is converted to the name of a member that
containers inherit from their prototype. -/
def ownSegments (path : List Value) : Bool :=
  path.all (fun s => !inheritedName (toPropertyKey s))

/-! ## Runs in which every function answers at most once -/

/-- The step `r'` has scheduled one further step from `r` and done nothing
else: nothing emitted, nothing thrown, the chain as it was, and the recorded
error either as it was or taken care of by a handler of the chain. -/
def Scheduled (r r' : Run) : Prop :=
  ∃ h, r'.pending = r.pending ++ [h] ∧ r'.emitted = r.emitted ∧ r'.thrown = r.thrown ∧
    r'.context.chain = r.context.chain ∧
    (r'.context.error = r.context.error ∨
      ∃ e ∈ r.context.chain, (exposedHandler e).isSome = true)

/-- The invariant of a run: at most one step is deferred, and while one is,
nothing has been emitted or thrown and `null` has not been visited. -/
structure Quiet (r : Run) : Prop where
  pending_le : r.pending.length ≤ 1
  emitted_nil : r.pending ≠ [] → r.emitted = []
  thrown_none : r.pending ≠ [] → r.thrown = none
  chain_ne_null : r.pending ≠ [] → ∀ e ∈ r.context.chain, e ≠ .null

/-- The invariant of a run started without a recorded error: while a step is
deferred, an error is recorded only if a visited value exposes a handler. -/
def Clean (r : Run) : Prop :=
  r.pending ≠ [] → typeOf r.context.error = "object" →
    ∃ e ∈ r.context.chain, (exposedHandler e).isSome = true

/-- The states in which a step of the run `r` enters error recovery, with the
error it enters it for: a function throws an `Error`; the target is an `Error`
(a segment has been taken from the path before it is recognised); a container has
neither the segment nor a fallback (the path has been restored). -/
inductive RecoveryEntry (r : Run) : Value → Run → Prop where
  | thrown (x : Value) (rest : List Value) :
      r.thrown = none → r.pending = .fn (.throws x) :: rest → instanceofError x = true →
      RecoveryEntry r x
        { r with pending := rest,
                 context := { r.context with chain := r.context.chain ++ [.fn (.throws x)] } }
  | errorTarget (message : String) (rest : List Value) :
      r.thrown = none → r.pending = .error message :: rest →
      RecoveryEntry r (.error message)
        { r with pending := rest,
                 context := (contextArg { r.context with
                                chain := r.context.chain ++ [.error message] }).2 }
  | notFound (c s : Value) (path : List Value) (child index : Value) (rest : List Value) :
      r.thrown = none → r.pending = c :: rest → isContainer c = true →
      r.context.path = s :: path → testVoidSegment s = false →
      getProp c (toPropertyKey s) = .ok child → testVoidVariable child = true →
      getProp c IndexPropertyName = .ok index → testVoidVariable index = true →
      RecoveryEntry r NotFoundError
        { r with pending := rest,
                 context := { r.context with chain := r.context.chain ++ [c] } }

/-- No success notification of the log carries an `Error`. -/
def NoErrorEnd (r : Run) : Prop :=
  ∀ ev ∈ r.emitted, ev.name = "end" → instanceofError ev.arg = false

/-! ## The call and the descriptor -/

/-- What a call of `resolve` does: the exception it throws or the run it starts,
and the properties of the descriptor it has assigned, in the order of the
assignments. -/
structure Call where
  result : Except Value Run
  assigned : List String

/-- The assignment `context.name = ...` that `resolve` makes only when
`typeof context.name != 'function'`. -/
def assignUnlessFunction (context : Value) (name : String) : List String :=
  match getProp context name with
  | .ok v => if typeOf v = "function" then [] else [name]
  | .error _ => []

/-- Main entry point, statement by statement: the switch, the test of the path,
which throws before anything is assigned, then the assignments of `arg`,
`unarg` and `chain`, the first deferred step, and the assignment of `events`. -/
def resolveCall (target : Value) : Value → Call
  | .fn (.returns context) => resolveCall target context
  | .fn (.throws x) => ⟨.error x, []⟩
  | .fn (.complete _ _) => ⟨.error typeError, []⟩
  | context =>
    let context := createContext context
    match getProp context "path" with
    | .error e => ⟨.error e, []⟩
    | .ok path =>
      match path with
      | .arr segments =>
        match getProp context "error" with
        | .error e => ⟨.error e, []⟩
        | .ok error =>
          ⟨.ok (startRun target segments error),
            assignUnlessFunction context "arg" ++ assignUnlessFunction context "unarg"
              ++ ["chain", "events"]⟩
      | _ => ⟨.error PathNotArrayError, []⟩

/-! ## Counting the scheduled steps -/

/-- The number of calls of the scheduler made by the turn that starts in `r`:
each call adds one target at the end of the queue, and the turn takes one from
its front when it runs a step. -/
def scheduledBy (r : Run) : Nat :=
  match r.thrown, r.pending with
  | none, _ :: rest => (tick r).pending.length - rest.length
  | _, _ => 0

/-- The number of calls of the scheduler made for a run up to its `n`-th turn,
the call made by `resolve` itself included. -/
def scheduledSoFar : Nat → Run → Nat
  | 0, r => r.pending.length
  | n + 1, r => scheduledSoFar n r + scheduledBy (ticks n r)

/-! ## The height of a tree -/

mutual
/-- The height of a tree: a value without children has height `0`, a container
is one higher than its highest child.  A function counts the values it can
answer with as its children. -/
def height : Value → Nat
  | .obj props => heightProps props
  | .arr elems => heightList elems
  | .fn (.complete target alt) => max (height target + 1) (height alt + 1)
  | _ => 0
/-- One more than the height of the highest property value. -/
def heightProps : List (String × Value) → Nat
  | [] => 0
  | (_, v) :: rest => max (height v + 1) (heightProps rest)
/-- One more than the height of the highest element. -/
def heightList : List Value → Nat
  | [] => 0
  | v :: rest => max (height v + 1) (heightList rest)
end

mutual
/-- A tree that contains no functions. -/
def functionFree : Value → Bool
  | .obj props => functionFreeProps props
  | .arr elems => functionFreeList elems
  | .fn _ => false
  | _ => true
/-- The properties of a tree without functions. -/
def functionFreeProps : List (String × Value) → Bool
  | [] => true
  | (_, v) :: rest => functionFree v && functionFreeProps rest
/-- The elements of a tree without functions. -/
def functionFreeList : List Value → Bool
  | [] => true
  | v :: rest => functionFree v && functionFreeList rest
end

mutual
/-- A tree in which every function answers: it calls the completion callback
or it throws; none returns without an answer. -/
def answersOnce : Value → Bool
  | .obj props => answersOnceProps props
  | .arr elems => answersOnceList elems
  | .fn (.complete target alt) => answersOnce target && answersOnce alt
  | .fn (.throws _) => true
  | .fn (.returns _) => false
  | _ => true
/-- The properties of a tree in which every function answers. -/
def answersOnceProps : List (String × Value) → Bool
  | [] => true
  | (_, v) :: rest => answersOnce v && answersOnceProps rest
/-- The elements of a tree in which every function answers. -/
def answersOnceList : List Value → Bool
  | [] => true
  | v :: rest => answersOnce v && answersOnceList rest
end

/-- A bound on the number of steps a target can take without a failure: one
for a string or a number, two more than its height otherwise (an empty array
still has its `length`). -/
def stepsBound (v : Value) : Nat :=
  if isLeaf v then 1 else height v + 2

/-- The potential of a run: nothing when no step is deferred; otherwise the
bound of the deferred target, and `budget` more steps for the handler as long
as no error is recorded. -/
def potential (budget : Nat) (r : Run) : Nat :=
  match r.pending with
  | [] => 0
  | v :: _ => stepsBound v + (if typeOf r.context.error = "object" then 0 else budget)

/-- The value `w` is what a step of `v` can schedule without a failure and
without the prototype of `v`: a present property of `v` under a key that is no
inherited name, or an argument `v` gives to the completion callback. -/
inductive Component : Value → Value → Prop where
  | prop (v : Value) (key : String) (w : Value) :
      getProp v key = .ok w → inheritedName key = false → testVoidVariable w = false →
      Component w v
  | target (w alt : Value) : Component w (.fn (.complete w alt))
  | alt (w : Value) : Component w (.fn (.complete .null w))

/-- What the step of `v` does to the run `r`, whose chain already ends with
`v` and whose path was `path` before the step: it schedules one step, a
component of `v` or, on the first failure, the handler of an entry of the chain
or, when the first segment is an inherited name, the member of the prototype; or
it emits one notification; or it throws, a `TypeError` or an error that meets a
recorded one; or `v` is a function that does not answer. -/
def StepKind (v : Value) (path : List Value) (r r' : Run) : Prop :=
  (∃ w, r'.pending = r.pending ++ [w] ∧ r'.emitted = r.emitted ∧ r'.thrown = r.thrown ∧
    isLeaf v = false ∧
    ((Component w v ∧ r'.context.error = r.context.error) ∨
     (typeOf r.context.error ≠ "object" ∧ typeOf r'.context.error = "object" ∧
      ∃ e ∈ r.context.chain, exposedHandler e = some w) ∨
     (∃ s rest, path = s :: rest ∧ inheritedName (toPropertyKey s) = true ∧
      getProp v (toPropertyKey s) = .ok w))) ∨
  (∃ ev, r'.pending = r.pending ∧ r'.emitted = r.emitted ++ [ev] ∧ r'.thrown = r.thrown ∧
    (ev.name = "end" ∨ ev.name = "error")) ∨
  (∃ x, r'.pending = r.pending ∧ r'.emitted = r.emitted ∧ r'.thrown = some x ∧
    (x = typeError ∨ typeOf r.context.error = "object")) ∨
  (∃ u, v = .fn (.returns u) ∧ r'.pending = r.pending ∧ r'.emitted = r.emitted ∧
    r'.thrown = r.thrown)

/-- Every value visited or deferred is at most `bound` high and all its
functions answer, and no segment left on the path is an inherited name. -/
def Within (bound : Nat) (r : Run) : Prop :=
  (∀ e ∈ r.context.chain ++ r.pending, height e ≤ bound ∧ answersOnce e = true) ∧
  ownSegments r.context.path = true

/-- The final outcome of a run with nothing deferred: exactly one
notification, success or failure, and nothing thrown; or a fatal condition and
no notification, the thrown value being a `TypeError` or an error that met a
recorded one. -/
def Settled (r : Run) : Prop :=
  (r.thrown = none ∧ ∃ ev, r.emitted = [ev] ∧ (ev.name = "end" ∨ ev.name = "error")) ∨
  (∃ x, r.thrown = some x ∧ r.emitted = [] ∧
    (x = typeError ∨ typeOf r.context.error = "object"))

/-! ## Inputs of the worked examples -/

/-- The sample tree of the how-to guide: `{foo: {bar: 'Baz', $index: 'Hello'}}`. -/
def sample : Value :=
  .obj [("foo", .obj [("bar", .str "Baz"), ("$index", .str "Hello")])]

/-- The tree `{a: {b: <throws x>, $error: <completes with 'Recovered'>}}`. -/
def rootThrowing (x : Value) : Value :=
  .obj [("a", .obj [("b", .fn (.throws x)),
                    ("$error", .fn (.complete (.str "Recovered") .undefined))])]

/-- The tree `{a: {b: <throws x>}}`, without a handler. -/
def rootThrowingBare (x : Value) : Value :=
  .obj [("a", .obj [("b", .fn (.throws x))])]

/-- The tree `{a: {b: f, $error: {x: 'one'}}}`: a function under a container
whose handler is itself a container. -/
def rootAnswering (f : Fn) : Value :=
  .obj [("a", .obj [("b", .fn f), ("$error", .obj [("x", .str "one")])])]

/-! ## The entry point -/

/-- C1 (the code at the inputs of the how-to guide): `typeof` never answers
`'array'`, and for an array it answers `'object'`; so an array given as the
second argument is taken for a run descriptor, it has no `path`, and `resolve`
throws `PathNotArrayError`, for every target and every array.  The same
segments wrapped by hand as `{path: p}` start a run, which for the sample tree
and `['foo', 'bar']` ends with the single notification `'end'` carrying
`'Baz'`. -/
theorem resolve_array_throws (t : Value) (p : List Value) :
    (∀ v : Value, typeOf v ≠ "array") ∧
    typeOf (.arr p) = "object" ∧
    createContext (.arr p) = .arr p ∧
    resolve t (.arr p) = .error PathNotArrayError ∧
    resolve t (.obj [("path", .arr p)]) = .ok (startRun t p .undefined) ∧
    resolve sample (.arr [.str "foo", .str "bar"]) = .error PathNotArrayError ∧
    (ticks 3 (startRun sample [.str "foo", .str "bar"] .undefined)).emitted
      = [⟨"end", .str "Baz"⟩] := by
  refine ⟨?_, rfl, rfl, rfl, rfl, rfl, rfl⟩
  intro v
  cases v <;> simp [typeOf]

/-! ## Terminal values -/

/-- C5: a step whose target is a string or a number `v` (the empty string and
zero included), with any remaining path, appends `v` to the chain and emits the
one notification `'end'` carrying `v`: nothing else is emitted, no step is
scheduled, nothing is thrown and the path is as it was.  The same holds for the
scheduler turn that runs the step. -/
theorem resolveNextTick_string_or_number (v : Value) (r : Run)
    (hv : typeOf v = "string" ∨ typeOf v = "number") :
    resolveNextTick v r =
      { r with context := { r.context with chain := r.context.chain ++ [v] },
               emitted := r.emitted ++ [⟨"end", v⟩] } ∧
    (resolveNextTick v r).emitted = r.emitted ++ [⟨"end", v⟩] ∧
    (resolveNextTick v r).pending = r.pending ∧
    (resolveNextTick v r).thrown = r.thrown ∧
    (resolveNextTick v r).context.path = r.context.path ∧
    (∀ rest, r.pending = v :: rest → r.thrown = none →
      (tick r).emitted = r.emitted ++ [⟨"end", v⟩] ∧ (tick r).pending = rest ∧
      (tick r).thrown = none ∧ (tick r).context.path = r.context.path) := by
  have key : resolveNextTick v r =
      { r with context := { r.context with chain := r.context.chain ++ [v] },
               emitted := r.emitted ++ [⟨"end", v⟩] } := by
    cases v <;> simp [typeOf] at hv <;> rfl
  refine ⟨key, by rw [key], by rw [key], by rw [key], by rw [key], ?_⟩
  intro rest hp ht
  have htick : tick r = resolveNextTick v { r with pending := rest } := by
    simp [tick, ht, hp]
  cases v <;> simp [typeOf] at hv <;> simp [htick, ht] <;> exact ⟨rfl, rfl, rfl, rfl⟩

/-- C5 at a concrete input: the empty string with a path that is not empty. -/
theorem resolveNextTick_string_or_number_witness :
    (resolveNextTick (.str "") (startRun .null [.str "a"] .undefined)).emitted
      = [⟨"end", .str ""⟩] :=
  (resolveNextTick_string_or_number (.str "") (startRun .null [.str "a"] .undefined)
    (Or.inl rfl)).2.1

/-! ## Containers: the fallback key -/

/-- C3: when the container `c` is dispatched with a non-void segment `s` at the
front of the path, `c[s]` void and `c.$index` non-void, the step schedules
`c.$index` as the next target and changes nothing else: the path is exactly the
one before the dispatch, `s` still first.  With the sample tree,
`resolve(sample, 'foo/yam')` runs with the path `['foo', 'yam']` and emits the one
notification `'end'` carrying `'Hello'`, the path still being `['yam']`. -/
theorem resolveObjectOrArray_index (c s : Value) (rest : List Value) (r : Run)
    (child index : Value)
    (hc : isContainer c = true)
    (hpath : r.context.path = s :: rest)
    (hs : testVoidSegment s = false)
    (hchild : getProp c (toPropertyKey s) = .ok child)
    (hvoid : testVoidVariable child = true)
    (hindex : getProp c IndexPropertyName = .ok index)
    (hpresent : testVoidVariable index = false) :
    resolveObjectOrArray c r = resolveNextTickGenerator index r ∧
    (resolveObjectOrArray c r).pending = r.pending ++ [index] ∧
    (resolveObjectOrArray c r).context.path = s :: rest ∧
    (resolveObjectOrArray c r).emitted = r.emitted ∧
    resolve sample (.str "foo/yam")
      = .ok (startRun sample [.str "foo", .str "yam"] .undefined) ∧
    (ticks 3 (startRun sample [.str "foo", .str "yam"] .undefined)).emitted
      = [⟨"end", .str "Hello"⟩] ∧
    (ticks 3 (startRun sample [.str "foo", .str "yam"] .undefined)).context.path
      = [.str "yam"] := by
  have herr : instanceofError c = false := by
    cases c <;> simp [isContainer] at hc <;> rfl
  have key : resolveObjectOrArray c r = resolveNextTickGenerator index r := by
    obtain ⟨⟨path, chain, error⟩, pending, emitted, thrown⟩ := r
    simp only at hpath
    subst hpath
    simp [resolveObjectOrArray, contextArg, contextUnArg, herr, hs, hchild, hvoid,
      hindex, hpresent]
  refine ⟨key, ?_, ?_, ?_, rfl, rfl, rfl⟩
  · rw [key]; rfl
  · rw [key]; exact hpath
  · rw [key]; rfl

/-- C3 at a concrete input: the container `foo` of the sample tree with the
path `['yam']`. -/
theorem resolveObjectOrArray_index_witness :
    resolveObjectOrArray (.obj [("bar", .str "Baz"), ("$index", .str "Hello")])
        (startRun sample [.str "yam"] .undefined)
      = resolveNextTickGenerator (.str "Hello") (startRun sample [.str "yam"] .undefined) :=
  (resolveObjectOrArray_index (.obj [("bar", .str "Baz"), ("$index", .str "Hello")])
    (.str "yam") [] (startRun sample [.str "yam"] .undefined) .undefined (.str "Hello")
    rfl rfl rfl rfl rfl rfl rfl).1

/-! ## Splitting a path string -/

/-- A split has at least one segment. -/
theorem splitChars_ne_nil (sep : Char) (cs : List Char) : splitChars sep cs ≠ [] := by
  induction cs with
  | nil => simp [splitChars]
  | cons c cs ih =>
    unfold splitChars
    split
    · simp
    · split <;> simp

/-- Joining when the first segment starts with a character. -/
theorem intercalate_cons_cons (sep : List Char) (c : Char) (seg : List Char)
    (segs : List (List Char)) :
    List.intercalate sep ((c :: seg) :: segs) = c :: List.intercalate sep (seg :: segs) := by
  cases segs <;> simp [List.intercalate, List.intersperse]

/-- Joining when the first segment is empty. -/
theorem intercalate_nil_cons (sep : Char) (segs : List (List Char)) (h : segs ≠ []) :
    List.intercalate [sep] ([] :: segs) = sep :: List.intercalate [sep] segs := by
  cases segs with
  | nil => exact absurd rfl h
  | cons seg segs => simp [List.intercalate, List.intersperse]

/-- Joining the segments of a split with the separator gives the text back. -/
theorem splitChars_intercalate (sep : Char) (cs : List Char) :
    List.intercalate [sep] (splitChars sep cs) = cs := by
  induction cs with
  | nil => simp [splitChars, List.intercalate, List.intersperse]
  | cons c cs ih =>
    unfold splitChars
    split
    · next h => rw [intercalate_nil_cons sep _ (splitChars_ne_nil sep cs), ih, h]
    · split
      · next h => exact absurd h (splitChars_ne_nil sep cs)
      · next seg segs h => rw [intercalate_cons_cons, ← h, ih]

/-- No segment of a split contains the separator. -/
theorem splitChars_not_mem (sep : Char) (cs : List Char) :
    ∀ seg ∈ splitChars sep cs, sep ∉ seg := by
  induction cs with
  | nil => simp [splitChars]
  | cons c cs ih =>
    unfold splitChars
    split
    · intro seg hseg
      rcases List.mem_cons.1 hseg with h | h
      · simp [h]
      · exact ih seg h
    · next hne =>
      split
      · next h => exact absurd h (splitChars_ne_nil sep cs)
      · next seg segs h =>
        rw [h] at ih
        intro seg' hseg'
        rcases List.mem_cons.1 hseg' with h' | h'
        · subst h'
          intro hmem
          rcases List.mem_cons.1 hmem with h1 | h1
          · exact hne h1.symm
          · exact ih seg (List.mem_cons_self _ _) h1
        · exact ih seg' (List.mem_cons_of_mem _ h')

/-- C6: for every string `s`, `resolve(t, s)` starts the run whose path is
`s.split('/')` with its first element removed if and only if that element is the
empty string, every other segment being kept as it is.  The split itself is the
only list of segments free of `'/'` whose join with `'/'` is `s`.  So
`'foo/yam'` gives `['foo', 'yam']`, `'/foo'` gives `['foo']` and `''` gives the
empty path. -/
theorem resolve_string_path (t : Value) (s : String) :
    resolve t (.str s) = .ok (startRun t
      ((if (split s '/').head? = some "" then (split s '/').tail
        else split s '/').map .str) .undefined) ∧
    List.intercalate ['/'] ((split s '/').map String.data) = s.data ∧
    (∀ seg ∈ split s '/', '/' ∉ seg.data) ∧
    resolve t (.str "foo/yam") = .ok (startRun t [.str "foo", .str "yam"] .undefined) ∧
    resolve t (.str "/foo") = .ok (startRun t [.str "foo"] .undefined) ∧
    resolve t (.str "") = .ok (startRun t [] .undefined) := by
  refine ⟨rfl, ?_, ?_, rfl, rfl, rfl⟩
  · have h : (split s '/').map String.data = splitChars '/' s.data := by
      simp [split, List.map_map, Function.comp_def]
    rw [h, splitChars_intercalate]
  · intro seg hseg
    obtain ⟨cs, hcs, rfl⟩ := List.mem_map.1 hseg
    exact splitChars_not_mem '/' s.data cs hcs

/-! ## The void test -/

/-- C7: presence is tested by the one predicate "none of `null`, `undefined`,
`false`", under both of its names.  (1) A child that is `false` (or `null`) is
handled as a missing child: the path is restored and the step goes to the
fallback `$index` when that is present, to `NotFoundError` otherwise, and
`$index` itself is tested with the same predicate.  (2) A segment `false`,
`null` or `undefined` at the front of the path, and the exhausted path, end the
walk with the current container as the answer.  (3) A child `0` or `''` is
present: it is scheduled as the next target and its step delivers it as the
success value.  (4) In the scan for a handler an entry whose `$error` is void is
passed over and one whose `$error` is not void is taken. -/
theorem testVoidVariable_everywhere :
    (∀ v, testVoidVariable v = true ↔ (v = .null ∨ v = .undefined ∨ v = .bool false)) ∧
    (∀ v, testVoidSegment v = testVoidVariable v) ∧
    (∀ (c s : Value) (rest : List Value) (r : Run) (child index : Value),
      isContainer c = true → r.context.path = s :: rest → testVoidSegment s = false →
      getProp c (toPropertyKey s) = .ok child →
      (child = .bool false ∨ child = .undefined ∨ child = .null) →
      getProp c IndexPropertyName = .ok index →
      resolveObjectOrArray c r =
        if testVoidVariable index then answer NotFoundError r
        else resolveNextTickGenerator index r) ∧
    (∀ (c s : Value) (rest : List Value) (r : Run),
      isContainer c = true → r.context.path = s :: rest →
      (s = .bool false ∨ s = .null ∨ s = .undefined) →
      resolveObjectOrArray c r
        = emit "end" c { r with context := { r.context with path := rest } }) ∧
    (∀ (c : Value) (r : Run),
      isContainer c = true → r.context.path = [] →
      resolveObjectOrArray c r = emit "end" c r) ∧
    (∀ (c s : Value) (rest : List Value) (r : Run) (child : Value),
      isContainer c = true → r.context.path = s :: rest → testVoidSegment s = false →
      getProp c (toPropertyKey s) = .ok child →
      (child = .num 0 ∨ child = .str "") →
      resolveObjectOrArray c r
        = resolveNextTickGenerator child
            { r with context := { r.context with path := rest } } ∧
      ∀ r' : Run, (resolveNextTick child r').emitted = r'.emitted ++ [⟨"end", child⟩]) ∧
    (∀ (err : Value) (r : Run) (i : Nat) (handler : Value),
      typeOf (r.context.chain.getD i .undefined) ≠ "undefined" →
      getProp (r.context.chain.getD i .undefined) ErrorPropertyName = .ok handler →
      resolveErrorLoop err r (i + 1) =
        if testVoidVariable handler then resolveErrorLoop err r i
        else resolveNextTickGenerator handler r) := by
  refine ⟨?_, fun _ => rfl, ?_, ?_, ?_, ?_, ?_⟩
  · intro v
    cases v with
    | bool b => cases b <;> simp [testVoidVariable]
    | _ => simp [testVoidVariable]
  · intro c s rest r child index hc hpath hs hchild hvoid hindex
    have herr : instanceofError c = false := by
      cases c <;> simp [isContainer] at hc <;> rfl
    have hv : testVoidVariable child = true := by
      rcases hvoid with h | h | h <;> subst h <;> rfl
    obtain ⟨⟨path, chain, error⟩, pending, emitted, thrown⟩ := r
    simp only at hpath
    subst hpath
    cases hi : testVoidVariable index <;>
      simp [resolveObjectOrArray, contextArg, contextUnArg, herr, hs, hchild, hv, hindex, hi]
  · intro c s rest r hc hpath hs
    have herr : instanceofError c = false := by
      cases c <;> simp [isContainer] at hc <;> rfl
    have hv : testVoidSegment s = true := by
      rcases hs with h | h | h <;> subst h <;> rfl
    obtain ⟨⟨path, chain, error⟩, pending, emitted, thrown⟩ := r
    simp only at hpath
    subst hpath
    simp [resolveObjectOrArray, contextArg, herr, hv, answer]
  · intro c r hc hpath
    have herr : instanceofError c = false := by
      cases c <;> simp [isContainer] at hc <;> rfl
    obtain ⟨⟨path, chain, error⟩, pending, emitted, thrown⟩ := r
    simp only at hpath
    subst hpath
    simp [resolveObjectOrArray, contextArg, herr, testVoidSegment, testVoidVariable, answer]
  · intro c s rest r child hc hpath hs hchild hzero
    have herr : instanceofError c = false := by
      cases c <;> simp [isContainer] at hc <;> rfl
    have hv : testVoidVariable child = false := by
      rcases hzero with h | h <;> subst h <;> rfl
    constructor
    · obtain ⟨⟨path, chain, error⟩, pending, emitted, thrown⟩ := r
      simp only at hpath
      subst hpath
      simp [resolveObjectOrArray, contextArg, herr, hs, hchild, hv]
    · intro r'
      rcases hzero with h | h <;> subst h <;> rfl
  · intro err r i handler htype hhandler
    rw [resolveErrorLoop]
    simp only [if_neg htype, hhandler]

/-- C7 at a concrete input: the child `false` of `{a: false}` and the child
that `{}` does not have are answered alike, with `NotFoundError`. -/
theorem testVoidVariable_everywhere_witness :
    resolveObjectOrArray (.obj [("a", .bool false)]) (startRun .null [.str "a"] .undefined)
      = answer NotFoundError (startRun .null [.str "a"] .undefined) ∧
    resolveObjectOrArray (.obj []) (startRun .null [.str "a"] .undefined)
      = answer NotFoundError (startRun .null [.str "a"] .undefined) :=
  ⟨testVoidVariable_everywhere.2.2.1 (.obj [("a", .bool false)]) (.str "a") []
      (startRun .null [.str "a"] .undefined) (.bool false) .undefined
      rfl rfl rfl rfl (Or.inl rfl) rfl,
   testVoidVariable_everywhere.2.2.1 (.obj []) (.str "a") []
      (startRun .null [.str "a"] .undefined) .undefined .undefined
      rfl rfl rfl rfl (Or.inr (Or.inl rfl)) rfl⟩

/-! ## Steps of the engine, one case at a time -/

/-- A scheduler turn runs the oldest deferred step. -/
theorem tick_cons (r : Run) (v : Value) (rest : List Value)
    (ht : r.thrown = none) (hp : r.pending = v :: rest) :
    tick r = resolveNextTick v { r with pending := rest } := by
  simp [tick, ht, hp]

/-- A run with nothing deferred does not move. -/
theorem ticks_of_pending_nil (n : Nat) (r : Run) (hp : r.pending = []) : ticks n r = r := by
  induction n with
  | zero => rfl
  | succ n ih =>
    have h : tick r = r := by
      unfold tick
      cases r.thrown <;> simp [hp]
    simp [ticks, h, ih]

/-- Turns of the scheduler compose. -/
theorem ticks_add (a b : Nat) (r : Run) : ticks (a + b) r = ticks b (ticks a r) := by
  induction a generalizing r with
  | zero => simp [ticks]
  | succ a ih => simp [Nat.succ_add, ticks, ih]

/-- A container is not an `Error`. -/
theorem instanceofError_of_isContainer (c : Value) (hc : isContainer c = true) :
    instanceofError c = false := by
  cases c <;> simp [isContainer] at hc <;> rfl

/-- The step of a container appends it to the chain and resolves it as an object. -/
theorem resolveNextTick_container (c : Value) (r : Run) (hc : isContainer c = true) :
    resolveNextTick c r = resolveObjectOrArray c
      { r with context := { r.context with chain := r.context.chain ++ [c] } } := by
  cases c <;> simp [isContainer] at hc <;> rfl

/-- A container with the path exhausted is the answer. -/
theorem resolveObjectOrArray_exhausted (c : Value) (r : Run)
    (hc : instanceofError c = false) (hpath : r.context.path = []) :
    resolveObjectOrArray c r = emit "end" c r := by
  obtain ⟨⟨path, chain, error⟩, pending, emitted, thrown⟩ := r
  simp only at hpath
  subst hpath
  simp [resolveObjectOrArray, contextArg, hc, testVoidSegment, testVoidVariable, answer]

/-- A container whose child at the segment is present schedules the child. -/
theorem resolveObjectOrArray_child (c s : Value) (rest : List Value) (r : Run) (child : Value)
    (hc : instanceofError c = false) (hpath : r.context.path = s :: rest)
    (hs : testVoidSegment s = false)
    (hchild : getProp c (toPropertyKey s) = .ok child)
    (hpresent : testVoidVariable child = false) :
    resolveObjectOrArray c r = resolveNextTickGenerator child
      { r with context := { r.context with path := rest } } := by
  obtain ⟨⟨path, chain, error⟩, pending, emitted, thrown⟩ := r
  simp only at hpath
  subst hpath
  simp [resolveObjectOrArray, contextArg, hc, hs, hchild, hpresent]

/-- A container whose child at the segment is void restores the path and goes
to its fallback, or to `NotFoundError`. -/
theorem resolveObjectOrArray_fallback (c s : Value) (rest : List Value) (r : Run)
    (child index : Value)
    (hc : instanceofError c = false) (hpath : r.context.path = s :: rest)
    (hs : testVoidSegment s = false)
    (hchild : getProp c (toPropertyKey s) = .ok child)
    (hvoid : testVoidVariable child = true)
    (hindex : getProp c IndexPropertyName = .ok index) :
    resolveObjectOrArray c r =
      if testVoidVariable index then answer NotFoundError r
      else resolveNextTickGenerator index r := by
  obtain ⟨⟨path, chain, error⟩, pending, emitted, thrown⟩ := r
  simp only at hpath
  subst hpath
  cases hi : testVoidVariable index <;>
    simp [resolveObjectOrArray, contextArg, contextUnArg, hc, hs, hchild, hvoid, hindex, hi]

/-- Error recovery on a run with no error recorded records the error and scans
the chain from its last entry. -/
theorem resolveError_fresh (err : Value) (r : Run) (h : typeOf r.context.error ≠ "object") :
    resolveError err r = resolveErrorLoop err
      { r with context := { r.context with error := err } } r.context.chain.length := by
  simp [resolveError, h]

/-- Only `undefined` has the type `'undefined'`. -/
theorem typeOf_eq_undefined_iff (e : Value) : typeOf e = "undefined" ↔ e = .undefined := by
  cases e <;> simp [typeOf]

/-- Reading a property throws for `null` and `undefined` only. -/
theorem getProp_ok_of_ne (e : Value) (key : String) (h1 : e ≠ .null) (h2 : e ≠ .undefined) :
    ∃ v, getProp e key = .ok v := by
  cases e <;> first | exact absurd rfl h1 | exact absurd rfl h2 | exact ⟨_, rfl⟩

/-- The scan passes over an entry that is not `null` and exposes no handler. -/
theorem resolveErrorLoop_skip (err : Value) (r : Run) (i : Nat)
    (hnull : r.context.chain.getD i .undefined ≠ .null)
    (hnone : exposedHandler (r.context.chain.getD i .undefined) = none) :
    resolveErrorLoop err r (i + 1) = resolveErrorLoop err r i := by
  rw [resolveErrorLoop]
  generalize r.context.chain.getD i .undefined = e at hnull hnone
  by_cases hu : e = .undefined
  · subst hu; simp [typeOf]
  · obtain ⟨v, hv⟩ := getProp_ok_of_ne e ErrorPropertyName hnull hu
    have ht : typeOf e ≠ "undefined" := fun h => hu ((typeOf_eq_undefined_iff e).1 h)
    simp only [exposedHandler, hv] at hnone
    simp only [if_neg ht, hv]
    cases hvoid : testVoidVariable v
    · simp [hvoid] at hnone
    · simp

/-- The scan takes the handler of an entry that exposes one. -/
theorem resolveErrorLoop_take (err : Value) (r : Run) (i : Nat) (handler : Value)
    (h : exposedHandler (r.context.chain.getD i .undefined) = some handler) :
    resolveErrorLoop err r (i + 1) = resolveNextTickGenerator handler r := by
  rw [resolveErrorLoop]
  generalize r.context.chain.getD i .undefined = e at h
  by_cases hu : e = .undefined
  · subst hu; simp [exposedHandler, getProp] at h
  · by_cases hn : e = .null
    · subst hn; simp [exposedHandler, getProp] at h
    · obtain ⟨v, hv⟩ := getProp_ok_of_ne e ErrorPropertyName hn hu
      have ht : typeOf e ≠ "undefined" := fun h => hu ((typeOf_eq_undefined_iff e).1 h)
      simp only [exposedHandler, hv] at h
      simp only [if_neg ht, hv]
      cases hvoid : testVoidVariable v
      · simp [hvoid] at h; subst h; simp
      · simp [hvoid] at h

/-- The scan of a chain without `null` and without handler ends in the failure
notification. -/
theorem resolveErrorLoop_skip_all (err : Value) (r : Run) (n : Nat)
    (hn : n ≤ r.context.chain.length)
    (hchain : ∀ e ∈ r.context.chain, e ≠ .null ∧ exposedHandler e = none) :
    resolveErrorLoop err r n = emit "error" err r := by
  induction n with
  | zero => rfl
  | succ i ih =>
    have hi : i < r.context.chain.length := hn
    have hget : r.context.chain.getD i .undefined = r.context.chain[i] := by
      simp [List.getD, List.getElem?_eq_getElem hi]
    have hmem : r.context.chain[i] ∈ r.context.chain := List.getElem_mem hi
    rw [resolveErrorLoop_skip err r i (by rw [hget]; exact (hchain _ hmem).1)
      (by rw [hget]; exact (hchain _ hmem).2)]
    exact ih (Nat.le_of_lt hi)

/-! ## Own and inherited properties -/

/-- The fallback key is no inherited name. -/
theorem inheritedName_index : inheritedName IndexPropertyName = false := rfl

/-- The handler key is no inherited name. -/
theorem inheritedName_error : inheritedName ErrorPropertyName = false := rfl

/-- A key that is no inherited name is answered by neither prototype. -/
theorem prototypeMember_of_not_inherited (key : String) (h : inheritedName key = false) :
    objectPrototypeMember key = .undefined ∧ arrayPrototypeMember key = .undefined := by
  simp only [inheritedName, Bool.or_eq_false_iff, beq_eq_false_iff_ne, ne_eq] at h
  obtain ⟨⟨h1, h2⟩, h3⟩ := h
  have h2' : objectPrototypeMembers.lookup key = none := by
    cases hl : objectPrototypeMembers.lookup key with
    | none => rfl
    | some v => rw [hl] at h2; simp at h2
  have h3' : arrayPrototypeMembers.lookup key = none := by
    cases hl : arrayPrototypeMembers.lookup key with
    | none => rfl
    | some v => rw [hl] at h3; simp at h3
  simp [objectPrototypeMember, arrayPrototypeMember, h1, h2', h3']

/-- For a key that is no inherited name an object answers with its own
property. -/
theorem getProp_obj_own (props : List (String × Value)) (key : String)
    (h : inheritedName key = false) :
    getProp (.obj props) key = .ok ((props.lookup key).getD .undefined) := by
  simp only [getProp, (prototypeMember_of_not_inherited key h).1]
  cases props.lookup key <;> rfl

/-- For a key that is no inherited name an array answers with its length or
an element. -/
theorem getProp_arr_own (elems : List Value) (key : String)
    (h : inheritedName key = false) :
    getProp (.arr elems) key
      = .ok (if key = "length" then .num elems.length else arrayIndex elems key) := by
  simp only [getProp, (prototypeMember_of_not_inherited key h).2]
  split
  · rfl
  · cases hi : parseIndex key with
    | none => simp [arrayIndex, hi]
    | some i => rfl

/-! ## Plain trees -/

/-- A plain value is a leaf or a container. -/
theorem plain_cases (v : Value) (h : plain v = true) :
    (isLeaf v = true ∧ isContainer v = false) ∨ (isLeaf v = false ∧ isContainer v = true) := by
  cases v <;> simp [plain] at h <;> simp [isLeaf, isContainer]

/-- A plain value is present. -/
theorem plain_not_void (v : Value) (h : plain v = true) : testVoidVariable v = false := by
  cases v <;> simp [plain] at h <;> rfl

/-- A plain value is not `null`. -/
theorem plain_ne_null (v : Value) (h : plain v = true) : v ≠ .null := by
  intro hv; subst hv; simp [plain] at h

/-- The values of a plain object are plain. -/
theorem plainProps_lookup (props : List (String × Value)) (k : String) (v : Value)
    (h : plainProps props = true) (hk : props.lookup k = some v) : plain v = true := by
  induction props with
  | nil => simp at hk
  | cons kv rest ih =>
    obtain ⟨k', v'⟩ := kv
    simp only [plainProps, Bool.and_eq_true] at h
    rw [List.lookup_cons] at hk
    cases hkk : (k == k') with
    | true => simp [hkk] at hk; subst hk; exact h.1.2
    | false => simp [hkk] at hk; exact ih h.2 hk

/-- A plain object has neither reserved key. -/
theorem plainProps_lookup_reserved (props : List (String × Value))
    (h : plainProps props = true) :
    props.lookup IndexPropertyName = none ∧ props.lookup ErrorPropertyName = none := by
  induction props with
  | nil => simp
  | cons kv rest ih =>
    obtain ⟨k', v'⟩ := kv
    simp only [plainProps, Bool.and_eq_true, bne_iff_ne, ne_eq] at h
    obtain ⟨⟨⟨h1, h2⟩, _⟩, h4⟩ := h
    have e1 : (IndexPropertyName == k') = false := by
      simpa using fun h => h1 h.symm
    have e2 : (ErrorPropertyName == k') = false := by
      simpa using fun h => h2 h.symm
    simp [List.lookup_cons, e1, e2, ih h4]

/-- The elements of a plain array are plain. -/
theorem plainList_getD (elems : List Value) (i : Nat) (h : plainList elems = true) :
    elems.getD i .undefined = .undefined ∨ plain (elems.getD i .undefined) = true := by
  induction elems generalizing i with
  | nil => left; simp
  | cons v rest ih =>
    simp only [plainList, Bool.and_eq_true] at h
    cases i with
    | zero => right; simpa using h.1
    | succ i => simpa using ih i h.2

/-- A property of a plain container that it does not inherit is missing or
plain. -/
theorem plain_getProp (c : Value) (k : String) (h : plain c = true)
    (hc : isContainer c = true) (hk : inheritedName k = false) :
    ∃ child, getProp c k = .ok child ∧ (child = .undefined ∨ plain child = true) := by
  cases c with
  | obj props =>
    simp only [plain] at h
    refine ⟨_, getProp_obj_own props k hk, ?_⟩
    cases hl : props.lookup k with
    | none => left; rfl
    | some v => right; exact plainProps_lookup props k v h hl
  | arr elems =>
    simp only [plain] at h
    refine ⟨_, getProp_arr_own elems k hk, ?_⟩
    split
    · right; rfl
    · unfold arrayIndex
      split
      · exact plainList_getD elems _ h
      · left; rfl
  | _ => simp [isContainer] at hc

/-- A plain container has no fallback. -/
theorem plain_getProp_index (c : Value) (h : plain c = true) (hc : isContainer c = true) :
    getProp c IndexPropertyName = .ok .undefined := by
  cases c with
  | obj props =>
    simp only [plain] at h
    rw [getProp_obj_own props _ inheritedName_index, (plainProps_lookup_reserved props h).1]
    rfl
  | arr elems => rfl
  | _ => simp [isContainer] at hc

/-- A plain value exposes no handler. -/
theorem plain_exposedHandler (v : Value) (h : plain v = true) : exposedHandler v = none := by
  cases v with
  | obj props =>
    simp only [plain] at h
    simp [exposedHandler, getProp_obj_own props _ inheritedName_error,
      (plainProps_lookup_reserved props h).2, testVoidVariable]
  | arr elems => rfl
  | str s => rfl
  | num n => rfl
  | _ => simp [plain] at h

/-- The run on a plain tree, started at any point of the walk, for segments
that name no inherited member: after one turn per segment and one more, the run
has ended with the notification of the nested lookup and nothing else. -/
theorem ticks_plain (p : List String) :
    (∀ s ∈ p, inheritedName s = false) →
    ∀ (v : Value) (chain : List Value) (error : Value) (E : List Event),
      plain v = true → (∀ e ∈ chain, plain e = true) → typeOf error ≠ "object" →
      (ticks (p.length + 1) ⟨⟨p.map .str, chain, error⟩, [v], E, none⟩).pending = [] ∧
      (ticks (p.length + 1) ⟨⟨p.map .str, chain, error⟩, [v], E, none⟩).thrown = none ∧
      (ticks (p.length + 1) ⟨⟨p.map .str, chain, error⟩, [v], E, none⟩).emitted
        = E ++ [lookupEvent (nestedLookup v p)] := by
  induction p with
  | nil =>
    intro _ v chain error E hv hchain herr
    simp only [List.length_nil, Nat.zero_add, ticks, List.map_nil, nestedLookup, lookupEvent]
    rw [tick_cons _ v [] rfl rfl]
    rcases plain_cases v hv with ⟨hl, -⟩ | ⟨-, hc⟩
    · cases v <;> simp [isLeaf] at hl <;> exact ⟨rfl, rfl, rfl⟩
    · rw [resolveNextTick_container v _ hc,
        resolveObjectOrArray_exhausted v _ (instanceofError_of_isContainer v hc) rfl]
      exact ⟨rfl, rfl, rfl⟩
  | cons s rest ih =>
    intro hown v chain error E hv hchain herr
    have hs : inheritedName s = false := hown s (List.mem_cons_self _ _)
    have ih := ih (fun x hx => hown x (List.mem_cons_of_mem _ hx))
    rw [show ticks ((s :: rest).length + 1)
        ⟨⟨(s :: rest).map .str, chain, error⟩, [v], E, none⟩
      = ticks (rest.length + 1)
          (tick ⟨⟨(s :: rest).map .str, chain, error⟩, [v], E, none⟩) from rfl]
    rw [tick_cons _ v [] rfl rfl]
    rcases plain_cases v hv with ⟨hl, -⟩ | ⟨hl, hc⟩
    · have hstep : resolveNextTick v
          { (⟨⟨(s :: rest).map .str, chain, error⟩, [v], E, none⟩ : Run) with pending := [] }
          = ⟨⟨(s :: rest).map .str, chain ++ [v], error⟩, [], E ++ [⟨"end", v⟩], none⟩ := by
        cases v <;> simp [isLeaf] at hl <;> rfl
      rw [hstep, ticks_of_pending_nil _ _ rfl]
      simp [nestedLookup, hl, lookupEvent]
    · have herrc := instanceofError_of_isContainer v hc
      obtain ⟨child, hchild, hplain⟩ := plain_getProp v s hv hc hs
      rw [resolveNextTick_container v _ hc]
      rcases hplain with hu | hp
      · subst hu
        rw [resolveObjectOrArray_fallback v (.str s) (rest.map .str) _ .undefined .undefined
          herrc rfl rfl hchild rfl (plain_getProp_index v hv hc)]
        simp only [testVoidVariable, if_true]
        rw [show answer NotFoundError
            { (⟨⟨(s :: rest).map .str, chain ++ [v], error⟩, [], E, none⟩ : Run) with
                pending := [] }
          = resolveError NotFoundError
              ⟨⟨(s :: rest).map .str, chain ++ [v], error⟩, [], E, none⟩ from rfl]
        rw [resolveError_fresh _ _ herr, resolveErrorLoop_skip_all _ _ _ (Nat.le_refl _)
          (fun e he => by
            have hpe : plain e = true := by
              rcases List.mem_append.1 he with h | h
              · exact hchain e h
              · rw [List.mem_singleton.1 h]; exact hv
            exact ⟨plain_ne_null e hpe, plain_exposedHandler e hpe⟩)]
        rw [ticks_of_pending_nil _ _ rfl]
        simp [nestedLookup, hl, hchild, testVoidVariable, lookupEvent, emit]
      · have hpresent := plain_not_void child hp
        rw [resolveObjectOrArray_child v (.str s) (rest.map .str) _ child
          herrc rfl rfl hchild hpresent]
        have := ih child (chain ++ [v]) error E hp (fun e he => by
          rcases List.mem_append.1 he with h | h
          · exact hchain e h
          · rw [List.mem_singleton.1 h]; exact hv) herr
        simpa [nestedLookup, hl, hchild, hpresent, resolveNextTickGenerator] using this

/-- On a plain tree, for segments that name no inherited member, the nested
lookup has no answer exactly when a segment is missing at a container reached by
the segments before it. -/
theorem nestedLookup_eq_none_iff (p : List String) :
    (∀ s ∈ p, inheritedName s = false) →
    ∀ t : Value, plain t = true →
      (nestedLookup t p = none ↔
        ∃ (pre : List String) (s : String) (post : List String) (c child : Value),
          p = pre ++ s :: post ∧ nestedLookup t pre = some c ∧ isContainer c = true ∧
          getProp c s = .ok child ∧ testVoidVariable child = true) := by
  induction p with
  | nil =>
    intro _ t _
    simp [nestedLookup]
  | cons a rest ih =>
    intro hown t ht
    have ha : inheritedName a = false := hown a (List.mem_cons_self _ _)
    have ih := ih (fun x hx => hown x (List.mem_cons_of_mem _ hx))
    rcases plain_cases t ht with ⟨hl, hnc⟩ | ⟨hl, hc⟩
    · constructor
      · intro h; simp [nestedLookup, hl] at h
      · rintro ⟨pre, s, post, c, child, -, hreach, hcont, -, -⟩
        have hct : c = t := by
          cases pre with
          | nil => simpa [nestedLookup] using hreach.symm
          | cons b pre => simpa [nestedLookup, hl] using hreach.symm
        rw [hct, hnc] at hcont
        exact absurd hcont (by simp)
    · obtain ⟨child, hchild, hplain⟩ := plain_getProp t a ht hc ha
      rcases hplain with hu | hp
      · subst hu
        constructor
        · intro _
          exact ⟨[], a, rest, t, .undefined, rfl, rfl, hc, hchild, rfl⟩
        · intro _
          simp [nestedLookup, hl, hchild, testVoidVariable]
      · have hpresent := plain_not_void child hp
        have hstep : nestedLookup t (a :: rest) = nestedLookup child rest := by
          simp [nestedLookup, hl, hchild, hpresent]
        rw [hstep, ih child hp]
        constructor
        · rintro ⟨pre, s, post, c, ch, hsplit, hreach, hcont, hget, hvoid⟩
          refine ⟨a :: pre, s, post, c, ch, by simp [hsplit], ?_, hcont, hget, hvoid⟩
          simpa [nestedLookup, hl, hchild, hpresent] using hreach
        · rintro ⟨pre, s, post, c, ch, hsplit, hreach, hcont, hget, hvoid⟩
          cases pre with
          | nil =>
            simp only [List.nil_append, List.cons.injEq] at hsplit
            simp only [nestedLookup, Option.some.injEq] at hreach
            obtain ⟨rfl, rfl⟩ := hsplit
            subst hreach
            rw [hchild] at hget
            simp only [Except.ok.injEq] at hget
            subst hget
            rw [hpresent] at hvoid
            exact absurd hvoid (by simp)
          | cons b pre =>
            simp only [List.cons_append, List.cons.injEq] at hsplit
            obtain ⟨rfl, rfl⟩ := hsplit
            refine ⟨pre, s, post, c, ch, rfl, ?_, hcont, hget, hvoid⟩
            simpa [nestedLookup, hl, hchild, hpresent] using hreach

/-! ## Runs on plain trees -/

/-- C2 (as stated, refuted): a container answers a key it does not own from
its prototype.  On the plain tree `{foo: {bar: 'Baz'}}` the segment
`'constructor'` is a non-void string, and the plain nested lookup finds the
inherited member, a function; the run schedules that function, which returns
without calling the completion callback, and ends without any notification:
neither success carrying what the lookup found nor the NotFound failure. -/
theorem resolve_plain_tree_inherited :
    plain (.obj [("foo", .obj [("bar", .str "Baz")])]) = true ∧
    testVoidSegment (.str "constructor") = false ∧
    resolve (.obj [("foo", .obj [("bar", .str "Baz")])])
        (.obj [("path", .arr [.str "constructor"])])
      = .ok (startRun (.obj [("foo", .obj [("bar", .str "Baz")])])
          [.str "constructor"] .undefined) ∧
    nestedLookup (.obj [("foo", .obj [("bar", .str "Baz")])]) ["constructor"]
      = some nativeReturning ∧
    (∀ n, 2 ≤ n →
      (ticks n (startRun (.obj [("foo", .obj [("bar", .str "Baz")])])
        [.str "constructor"] .undefined)).emitted = [] ∧
      (ticks n (startRun (.obj [("foo", .obj [("bar", .str "Baz")])])
        [.str "constructor"] .undefined)).pending = [] ∧
      (ticks n (startRun (.obj [("foo", .obj [("bar", .str "Baz")])])
        [.str "constructor"] .undefined)).thrown = none) := by
  refine ⟨rfl, rfl, rfl, rfl, ?_⟩
  intro n hn
  obtain ⟨k, rfl⟩ := Nat.exists_eq_add_of_le hn
  have h2 : (ticks 2 (startRun (.obj [("foo", .obj [("bar", .str "Baz")])])
      [.str "constructor"] .undefined)).pending = [] := rfl
  rw [ticks_add, ticks_of_pending_nil _ _ h2]
  exact ⟨rfl, rfl, rfl⟩

/-- C2 (amended): on a finite tree of containers and string or number leaves
without `$index` and `$error` keys, the run started by `resolve(t, {path: p})`
for string segments `p` none of which is the name of a member that objects or
arrays inherit from their prototype ends, after at most one turn per segment
and one more, with exactly one notification and nothing deferred or thrown: the
notification of the plain nested lookup, which is success carrying the first
leaf reached, or the container at which the path is exhausted, and failure with
`NotFoundError` exactly when a segment is missing at a container reached on the
way. -/
theorem resolve_plain_tree (t : Value) (p : List String) (hplain : plain t = true)
    (hown : ∀ s ∈ p, inheritedName s = false) :
    resolve t (.obj [("path", .arr (p.map .str))])
      = .ok (startRun t (p.map .str) .undefined) ∧
    (∀ n, p.length + 1 ≤ n →
      (ticks n (startRun t (p.map .str) .undefined)).pending = [] ∧
      (ticks n (startRun t (p.map .str) .undefined)).thrown = none ∧
      (ticks n (startRun t (p.map .str) .undefined)).emitted
        = [lookupEvent (nestedLookup t p)]) ∧
    (lookupEvent (nestedLookup t p) = ⟨"error", NotFoundError⟩ ↔
      ∃ (pre : List String) (s : String) (post : List String) (c child : Value),
        p = pre ++ s :: post ∧ nestedLookup t pre = some c ∧ isContainer c = true ∧
        getProp c s = .ok child ∧ testVoidVariable child = true) := by
  refine ⟨rfl, ?_, ?_⟩
  · intro n hn
    obtain ⟨h1, h2, h3⟩ :=
      ticks_plain p hown t [] .undefined [] hplain (by simp) (by simp [typeOf])
    obtain ⟨k, rfl⟩ := Nat.exists_eq_add_of_le hn
    have hstart : startRun t (p.map .str) .undefined
        = ⟨⟨p.map .str, [], .undefined⟩, [t], [], none⟩ := rfl
    rw [hstart, ticks_add, ticks_of_pending_nil _ _ h1]
    exact ⟨h1, h2, by simpa using h3⟩
  · rw [← nestedLookup_eq_none_iff p hown t hplain]
    cases nestedLookup t p with
    | none => simp [lookupEvent]
    | some v => simp [lookupEvent]

/-- C2 (amended) at a concrete input: the tree `{foo: {bar: 'Baz'}}` with the
path `['foo', 'bar']`, and with the path `['foo', 'yam']`. -/
theorem resolve_plain_tree_witness :
    (ticks 3 (startRun (.obj [("foo", .obj [("bar", .str "Baz")])])
      [.str "foo", .str "bar"] .undefined)).emitted = [⟨"end", .str "Baz"⟩] ∧
    (ticks 3 (startRun (.obj [("foo", .obj [("bar", .str "Baz")])])
      [.str "foo", .str "yam"] .undefined)).emitted = [⟨"error", NotFoundError⟩] :=
  ⟨((resolve_plain_tree (.obj [("foo", .obj [("bar", .str "Baz")])]) ["foo", "bar"] rfl
      (by decide)).2.1 3 (by decide)).2.2,
   ((resolve_plain_tree (.obj [("foo", .obj [("bar", .str "Baz")])]) ["foo", "yam"] rfl
      (by decide)).2.1 3 (by decide)).2.2⟩

/-! ## What one step can do -/

/-- The scan leaves the context alone and either schedules nothing or schedules
the handler of an entry of the chain. -/
theorem resolveErrorLoop_shape (err : Value) (r : Run) (n : Nat)
    (hn : n ≤ r.context.chain.length) :
    (resolveErrorLoop err r n).pending = r.pending ∨
    ∃ h, resolveErrorLoop err r n = resolveNextTickGenerator h r ∧
      ∃ e ∈ r.context.chain, exposedHandler e = some h := by
  induction n with
  | zero => left; rfl
  | succ i ih =>
    have hi : i < r.context.chain.length := hn
    have hget : r.context.chain.getD i .undefined = r.context.chain[i] := by
      simp [List.getD, List.getElem?_eq_getElem hi]
    have hmem : r.context.chain.getD i .undefined ∈ r.context.chain := by
      rw [hget]; exact List.getElem_mem hi
    cases hex : exposedHandler (r.context.chain.getD i .undefined) with
    | some h =>
      right
      exact ⟨h, resolveErrorLoop_take err r i h hex, _, hmem, hex⟩
    | none =>
      by_cases hnull : r.context.chain.getD i .undefined = .null
      · left
        rw [resolveErrorLoop, hnull]
        rfl
      · rw [resolveErrorLoop_skip err r i hnull hex]
        exact ih (Nat.le_of_lt hi)

/-- Error recovery schedules nothing, or the handler of an entry of the chain. -/
theorem resolveError_shape (err : Value) (r : Run) :
    (resolveError err r).pending = r.pending ∨ Scheduled r (resolveError err r) := by
  by_cases h : typeOf r.context.error = "object"
  · left; simp [resolveError, h, raise]
  · rw [resolveError_fresh err r h]
    rcases resolveErrorLoop_shape err
        { r with context := { r.context with error := err } } r.context.chain.length
        (Nat.le_refl _) with hl | ⟨hd, heq, e, he, hex⟩
    · left; exact hl
    · right
      rw [heq]
      exact ⟨hd, rfl, rfl, rfl, rfl, Or.inr ⟨e, he, by simp [hex]⟩⟩

/-- An answer schedules nothing, or the handler of an entry of the chain. -/
theorem answer_shape (x : Value) (r : Run) :
    (answer x r).pending = r.pending ∨ Scheduled r (answer x r) := by
  unfold answer
  split
  · exact resolveError_shape x r
  · left; rfl

/-- A scheduled step is of the shape `Scheduled`. -/
theorem scheduled_resolveNextTickGenerator (h : Value) (r : Run) :
    Scheduled r (resolveNextTickGenerator h r) :=
  ⟨h, rfl, rfl, rfl, rfl, Or.inl rfl⟩

/-- The step of an object, an array, an `Error` or `null` schedules nothing, or
one step; `null` never schedules. -/
theorem resolveObjectOrArray_shape (v : Value) (r : Run) :
    (resolveObjectOrArray v r).pending = r.pending ∨
    (Scheduled r (resolveObjectOrArray v r) ∧ v ≠ .null) := by
  unfold resolveObjectOrArray
  simp only
  split
  · next hcond =>
    rcases answer_shape v { r with context := (contextArg r.context).2 } with h | h
    · left; exact h
    · right
      refine ⟨?_, ?_⟩
      · obtain ⟨hd, h1, h2, h3, h4, h5⟩ := h
        refine ⟨hd, h1, h2, h3, ?_, ?_⟩
        · rw [h4]; unfold contextArg; split <;> rfl
        · rcases h5 with h5 | h5
          · left; rw [h5]; unfold contextArg; split <;> rfl
          · right
            have : (contextArg r.context).2.chain = r.context.chain := by
              unfold contextArg; split <;> rfl
            simpa [this] using h5
      · intro hv
        subst hv
        obtain ⟨hd, h1, h2, h3, h4, h5⟩ := h
        simp [answer, instanceofError, emit] at h1
  · next hcond =>
    have hchain : (contextArg r.context).2.chain = r.context.chain := by
      unfold contextArg; split <;> rfl
    have herror : (contextArg r.context).2.error = r.context.error := by
      unfold contextArg; split <;> rfl
    split
    · left; rfl
    · next child hchild =>
      have hv : v ≠ .null := by
        intro hv; subst hv; simp [getProp] at hchild
      split
      · right
        exact ⟨⟨child, rfl, rfl, rfl, hchain, Or.inl herror⟩, hv⟩
      · split
        · left; rfl
        · next index hindex =>
          split
          · right
            exact ⟨⟨index, rfl, rfl, rfl, hchain, Or.inl herror⟩, hv⟩
          · rcases answer_shape NotFoundError
              ⟨contextUnArg (contextArg r.context).1 (contextArg r.context).2,
                r.pending, r.emitted, r.thrown⟩ with h | h
            · left; exact h
            · right
              obtain ⟨hd, h1, h2, h3, h4, h5⟩ := h
              refine ⟨⟨hd, h1, h2, h3, ?_, ?_⟩, hv⟩
              · rw [h4]; exact hchain
              · rcases h5 with h5 | h5
                · left; rw [h5]; exact herror
                · right
                  have : (contextUnArg (contextArg r.context).1
                      (contextArg r.context).2).chain = r.context.chain := hchain
                  simpa [this] using h5

/-- The step of a function schedules nothing, or one step. -/
theorem resolveFunction_shape (v : Value) (r : Run) :
    (resolveFunction v r).pending = r.pending ∨ Scheduled r (resolveFunction v r) := by
  unfold resolveFunction
  split
  · right; exact scheduled_resolveNextTickGenerator _ r
  · exact answer_shape _ r
  · left; rfl
  · exact answer_shape _ r

/-- Every deferred step appends its target to the chain, and then schedules
nothing, or one step; the step of `null` never schedules. -/
theorem resolveNextTick_shape (v : Value) (r : Run) :
    (resolveNextTick v r).pending = r.pending ∨
    (Scheduled { r with context := { r.context with chain := r.context.chain ++ [v] } }
        (resolveNextTick v r) ∧ v ≠ .null) := by
  cases v with
  | undefined => left; rfl
  | bool b => left; rfl
  | null =>
    rcases resolveObjectOrArray_shape .null
      { r with context := { r.context with chain := r.context.chain ++ [.null] } } with h | h
    · left; exact h
    · exact absurd rfl h.2
  | num n => left; rfl
  | str s => left; rfl
  | obj props =>
    exact resolveObjectOrArray_shape (.obj props)
      { r with context := { r.context with chain := r.context.chain ++ [.obj props] } }
  | arr elems =>
    exact resolveObjectOrArray_shape (.arr elems)
      { r with context := { r.context with chain := r.context.chain ++ [.arr elems] } }
  | error message =>
    exact resolveObjectOrArray_shape (.error message)
      { r with context := { r.context with chain := r.context.chain ++ [.error message] } }
  | fn f =>
    rcases resolveFunction_shape (.fn f)
      { r with context := { r.context with chain := r.context.chain ++ [.fn f] } } with h | h
    · left; exact h
    · right; exact ⟨h, by simp⟩

/-! ## Invariants of a run -/

/-- Taking a segment leaves the chain alone. -/
theorem contextArg_chain (c : Context) : (contextArg c).2.chain = c.chain := by
  unfold contextArg; split <;> rfl

/-- Taking a segment leaves the recorded error alone. -/
theorem contextArg_error (c : Context) : (contextArg c).2.error = c.error := by
  unfold contextArg; split <;> rfl

/-- A started run satisfies the invariant. -/
theorem quiet_startRun (t : Value) (path : List Value) (error : Value) :
    Quiet (startRun t path error) :=
  ⟨by simp [startRun, resolveNextTickGenerator], fun _ => rfl, fun _ => rfl,
    fun _ e he => by simp [startRun, resolveNextTickGenerator] at he⟩

/-- A scheduler turn keeps the invariant. -/
theorem quiet_tick (r : Run) (h : Quiet r) : Quiet (tick r) := by
  unfold tick
  split
  · exact h
  · next ht =>
    split
    · exact h
    · next v rest hp =>
      have hrest : rest = [] := by
        have := h.pending_le
        rw [hp] at this
        simpa using this
      subst hrest
      have hne : r.pending ≠ [] := by simp [hp]
      rcases resolveNextTick_shape v { r with pending := [] } with hl | ⟨⟨hd, h1, h2, h3, h4, -⟩, hv⟩
      · have hl' : (resolveNextTick v { r with pending := [] }).pending = [] := hl
        exact ⟨by simp [hl'], fun hc => absurd hl' hc, fun hc => absurd hl' hc,
          fun hc => absurd hl' hc⟩
      · refine ⟨by rw [h1]; simp, fun _ => ?_, fun _ => ?_, fun _ e he => ?_⟩
        · rw [h2]; exact h.emitted_nil hne
        · rw [h3]; exact ht
        · rw [h4] at he
          rcases List.mem_append.1 he with he | he
          · exact h.chain_ne_null hne e he
          · rw [List.mem_singleton.1 he]; exact hv

/-- Every state of a started run satisfies the invariant. -/
theorem quiet_ticks (n : Nat) (r : Run) (h : Quiet r) : Quiet (ticks n r) := by
  induction n generalizing r with
  | zero => exact h
  | succ n ih => exact ih (tick r) (quiet_tick r h)

/-- A run started without a recorded error satisfies the second invariant. -/
theorem clean_startRun (t : Value) (path : List Value) (error : Value)
    (herr : typeOf error ≠ "object") : Clean (startRun t path error) :=
  fun _ h => absurd h herr

/-- A scheduler turn keeps the second invariant. -/
theorem clean_tick (r : Run) (hq : Quiet r) (h : Clean r) : Clean (tick r) := by
  unfold tick
  split
  · exact h
  · next ht =>
    split
    · exact h
    · next v rest hp =>
      have hrest : rest = [] := by
        have := hq.pending_le
        rw [hp] at this
        simpa using this
      subst hrest
      have hne : r.pending ≠ [] := by simp [hp]
      rcases resolveNextTick_shape v { r with pending := [] } with hl | ⟨⟨hd, h1, h2, h3, h4, h5⟩, hv⟩
      · intro hc
        exact absurd hl hc
      · intro _ hobj
        rw [h4]
        rcases h5 with h5 | h5
        · rw [h5] at hobj
          obtain ⟨e, he, hex⟩ := h hne hobj
          exact ⟨e, List.mem_append_left _ he, hex⟩
        · exact h5

/-- Every state of a run started without a recorded error satisfies both
invariants. -/
theorem clean_ticks (n : Nat) (r : Run) (hq : Quiet r) (h : Clean r) :
    Quiet (ticks n r) ∧ Clean (ticks n r) := by
  induction n generalizing r with
  | zero => exact ⟨hq, h⟩
  | succ n ih => exact ih (tick r) (quiet_tick r hq) (clean_tick r hq h)

/-- The states in `RecoveryEntry` are the states in which the step calls
`resolveError`. -/
theorem tick_of_recoveryEntry (r : Run) (err : Value) (entry : Run)
    (h : RecoveryEntry r err entry) : tick r = resolveError err entry := by
  cases h with
  | thrown x rest ht hp hx =>
    rw [tick_cons r _ rest ht hp]
    simp [resolveNextTick, resolveType, typeOf, resolveFunction, answer, hx]
  | errorTarget message rest ht hp =>
    rw [tick_cons r _ rest ht hp]
    simp [resolveNextTick, resolveType, typeOf, resolveObjectOrArray, instanceofError, answer]
  | notFound c s path child index rest ht hp hc hpath hs hchild hvoid hindex hivoid =>
    rw [tick_cons r _ rest ht hp, resolveNextTick_container c _ hc,
      resolveObjectOrArray_fallback c s path
        ⟨⟨r.context.path, r.context.chain ++ [c], r.context.error⟩, rest, r.emitted, r.thrown⟩
        child index (instanceofError_of_isContainer c hc) hpath hs hchild hvoid hindex, hivoid]
    rfl

/-- In a run, the chain at the entry of error recovery is the chain before the
step with the current target appended, nothing else is deferred, nothing has
been emitted or thrown, and `null` is not on the chain. -/
theorem recoveryEntry_quiet (r : Run) (err : Value) (entry : Run) (hq : Quiet r)
    (h : RecoveryEntry r err entry) :
    entry.pending = [] ∧ entry.emitted = [] ∧ entry.thrown = none ∧
    entry.context.error = r.context.error ∧
    (∃ v, r.pending = [v] ∧ entry.context.chain = r.context.chain ++ [v]) ∧
    ∀ e ∈ entry.context.chain, e ≠ .null := by
  have hrest : ∀ v rest, r.pending = v :: rest → rest = [] := by
    intro v rest hp
    have := hq.pending_le
    rw [hp] at this
    simpa using this
  cases h with
  | thrown x rest ht hp hx =>
    have hne : r.pending ≠ [] := by simp [hp]
    have := hrest _ _ hp
    subst this
    refine ⟨rfl, hq.emitted_nil hne, ht, rfl, ⟨_, hp, rfl⟩, fun e he => ?_⟩
    rcases List.mem_append.1 he with he | he
    · exact hq.chain_ne_null hne e he
    · rw [List.mem_singleton.1 he]; simp
  | errorTarget message rest ht hp =>
    have hne : r.pending ≠ [] := by simp [hp]
    have := hrest _ _ hp
    subst this
    refine ⟨rfl, hq.emitted_nil hne, ht, contextArg_error _, ⟨_, hp, contextArg_chain _⟩,
      fun e he => ?_⟩
    · have he' : e ∈ r.context.chain ++ [.error message] := by
        have hc : (contextArg
            { r.context with chain := r.context.chain ++ [.error message] }).2.chain
            = r.context.chain ++ [.error message] := contextArg_chain _
        exact hc ▸ he
      rcases List.mem_append.1 he' with he | he
      · exact hq.chain_ne_null hne e he
      · rw [List.mem_singleton.1 he]; simp
  | notFound c s path child index rest ht hp hc hpath hs hchild hvoid hindex hivoid =>
    have hne : r.pending ≠ [] := by simp [hp]
    have := hrest _ _ hp
    subst this
    refine ⟨rfl, hq.emitted_nil hne, ht, rfl, ⟨_, hp, rfl⟩, fun e he => ?_⟩
    rcases List.mem_append.1 he with he | he
    · exact hq.chain_ne_null hne e he
    · rw [List.mem_singleton.1 he]
      intro hnull
      subst hnull
      simp [isContainer] at hc

/-! ## Error recovery -/

/-- The call `resolve(target, context)` when the context is not a function. -/
theorem resolve_of_not_function (t c : Value) (hc : typeOf c ≠ "function") :
    resolve t c =
      match getProp (createContext c) "path" with
      | .error e => .error e
      | .ok path =>
        match path with
        | .arr segments =>
          match getProp (createContext c) "error" with
          | .error e => .error e
          | .ok error => .ok (startRun t segments error)
        | _ => .error PathNotArrayError := by
  cases c <;> first | rfl | exact absurd rfl hc

/-- Whatever `resolve` is given, a run it starts is `startRun` of the target,
some path and the `error` property of the descriptor. -/
theorem resolve_ok (t : Value) (context : Value) (r0 : Run)
    (h : resolve t context = .ok r0) : ∃ path error, r0 = startRun t path error := by
  have base : ∀ c, typeOf c ≠ "function" → resolve t c = .ok r0 →
      ∃ path error, r0 = startRun t path error := by
    intro c hc h
    rw [resolve_of_not_function t c hc] at h
    split at h
    · simp at h
    · split at h
      · split at h
        · simp at h
        · simp only [Except.ok.injEq] at h
          exact ⟨_, _, h.symm⟩
      · simp at h
  have notfn : ∀ c : Value, (∀ x, c = .fn (.returns x) → False) →
      (∀ x, c = .fn (.throws x) → False) → (∀ a b, c = .fn (.complete a b) → False) →
      typeOf c ≠ "function" := by
    intro c h1 h2 h3
    cases c with
    | fn f =>
      cases f with
      | complete a b => exact absurd rfl (h3 a b)
      | throws x => exact absurd rfl (h2 x)
      | returns x => exact absurd rfl (h1 x)
    | _ => simp [typeOf]
  induction context using resolve.induct t with
  | case1 c ih => rw [resolve] at h; exact ih h
  | case2 x => simp [resolve] at h
  | case3 a b => simp [resolve] at h
  | case4 c h1 h2 h3 => exact base c (notfn c h1 h2 h3) h
  | case5 c h1 h2 h3 => exact base c (notfn c h1 h2 h3) h
  | case6 c h1 h2 h3 => exact base c (notfn c h1 h2 h3) h
  | case7 c h1 h2 h3 => exact base c (notfn c h1 h2 h3) h

/-- Every state of a run started by `resolve` satisfies the invariant. -/
theorem quiet_of_resolve (t context : Value) (r0 : Run) (h : resolve t context = .ok r0)
    (n : Nat) : Quiet (ticks n r0) := by
  obtain ⟨path, error, rfl⟩ := resolve_ok t context r0 h
  exact quiet_ticks n _ (quiet_startRun t path error)

/-- Below the most recent entry that exposes a handler the scan has nothing to
decide: it passes over every entry above it. -/
theorem resolveErrorLoop_above (err : Value) (r : Run) (i n : Nat)
    (hin : i < n) (hn : n ≤ r.context.chain.length)
    (hnull : ∀ e ∈ r.context.chain, e ≠ .null)
    (hrecent : ∀ j, i < j → j < r.context.chain.length →
      exposedHandler (r.context.chain.getD j .undefined) = none) :
    resolveErrorLoop err r n = resolveErrorLoop err r (i + 1) := by
  induction n with
  | zero => exact absurd hin (Nat.not_lt_zero i)
  | succ k ih =>
    rcases Nat.lt_succ_iff_lt_or_eq.1 hin with hlt | heq
    · have hk : k < r.context.chain.length := hn
      have hget : r.context.chain.getD k .undefined = r.context.chain[k] := by
        simp [List.getD, List.getElem?_eq_getElem hk]
      rw [resolveErrorLoop_skip err r k
        (by rw [hget]; exact hnull _ (List.getElem_mem hk)) (hrecent k hlt hk)]
      exact ih hlt (Nat.le_of_lt hk)
    · rw [heq]

/-- Error recovery on a run without a recorded error whose chain exposes a
handler: the handler of the most recent such entry is scheduled, the error is
recorded, and nothing else changes. -/
theorem resolveError_handler (err : Value) (r : Run) (i : Nat) (handler : Value)
    (hfresh : typeOf r.context.error ≠ "object")
    (hnull : ∀ e ∈ r.context.chain, e ≠ .null)
    (hi : i < r.context.chain.length)
    (hexp : exposedHandler (r.context.chain.getD i .undefined) = some handler)
    (hrecent : ∀ j, i < j → j < r.context.chain.length →
      exposedHandler (r.context.chain.getD j .undefined) = none) :
    resolveError err r = resolveNextTickGenerator handler
      { r with context := { r.context with error := err } } := by
  rw [resolveError_fresh err r hfresh,
    resolveErrorLoop_above err { r with context := { r.context with error := err } } i
      r.context.chain.length hi (Nat.le_refl _) hnull hrecent,
    resolveErrorLoop_take err { r with context := { r.context with error := err } } i handler
      hexp]

/-- Error recovery on a run without a recorded error whose chain exposes no
handler: the error is recorded and the failure notification is emitted. -/
theorem resolveError_no_handler (err : Value) (r : Run)
    (hfresh : typeOf r.context.error ≠ "object")
    (hchain : ∀ e ∈ r.context.chain, e ≠ .null ∧ exposedHandler e = none) :
    resolveError err r = emit "error" err
      { r with context := { r.context with error := err } } := by
  rw [resolveError_fresh err r hfresh,
    resolveErrorLoop_skip_all err { r with context := { r.context with error := err } }
      r.context.chain.length (Nat.le_refl _) hchain]

/-- A step that enters error recovery in a run started without a recorded
error, when no visited value exposes a handler: the run ends with the failure
notification for that error as its only notification. -/
theorem tick_recovery_no_handler (r : Run) (err : Value) (entry : Run)
    (hq : Quiet r) (hc : Clean r) (h : RecoveryEntry r err entry)
    (hnone : ∀ e ∈ entry.context.chain, exposedHandler e = none) :
    tick r = { entry with context := { entry.context with error := err },
                          emitted := [⟨"error", err⟩] } ∧
    entry.pending = [] ∧ entry.thrown = none := by
  obtain ⟨hp, hem, hth, herr, ⟨v, hpv, hchain⟩, hnull⟩ := recoveryEntry_quiet r err entry hq h
  have hne : r.pending ≠ [] := by simp [hpv]
  have hfresh : typeOf entry.context.error ≠ "object" := by
    rw [herr]
    intro hobj
    obtain ⟨e, he, hex⟩ := hc hne hobj
    have := hnone e (by rw [hchain]; exact List.mem_append_left _ he)
    simp [this] at hex
  refine ⟨?_, hp, hth⟩
  rw [tick_of_recoveryEntry r err entry h,
    resolveError_no_handler err entry hfresh (fun e he => ⟨hnull e he, hnone e he⟩)]
  simp [emit, hem]

/-! ## Containers: the failed lookup -/

/-- C4: (1) when the container `c` is dispatched with a non-void segment `s` at
the front of the path and both `c[s]` and `c.$index` are void, the step is error
recovery for `NotFoundError` on the run with its path as before the dispatch.
(2) In a run started by `resolve` from a descriptor that carries no error
object, if moreover no value visited so far, `c` included, exposes a non-void
`$error`, that step ends the run: the log of notifications is the single
failure `'error'` carrying `NotFoundError`, nothing is deferred or thrown, the
path is as before the dispatch, and no later turn changes anything.  (3) The
run of `{foo: {}}` with the path `['foo', 'missing']` is such a run. -/
theorem resolveObjectOrArray_notFound :
    (∀ (c s : Value) (rest : List Value) (r : Run) (child index : Value),
      isContainer c = true → r.context.path = s :: rest → testVoidSegment s = false →
      getProp c (toPropertyKey s) = .ok child → testVoidVariable child = true →
      getProp c IndexPropertyName = .ok index → testVoidVariable index = true →
      resolveObjectOrArray c r = resolveError NotFoundError r) ∧
    (∀ (t context : Value) (r0 : Run) (n : Nat) (c s : Value) (q rest : List Value)
      (child index : Value),
      resolve t context = .ok r0 → typeOf r0.context.error ≠ "object" →
      (ticks n r0).pending = c :: q → isContainer c = true →
      (ticks n r0).context.path = s :: rest → testVoidSegment s = false →
      getProp c (toPropertyKey s) = .ok child → testVoidVariable child = true →
      getProp c IndexPropertyName = .ok index → testVoidVariable index = true →
      (∀ e ∈ (ticks n r0).context.chain ++ [c], exposedHandler e = none) →
      (ticks (n + 1) r0).emitted = [⟨"error", NotFoundError⟩] ∧
      (ticks (n + 1) r0).pending = [] ∧
      (ticks (n + 1) r0).thrown = none ∧
      (ticks (n + 1) r0).context.path = s :: rest ∧
      (ticks (n + 1) r0).context.error = NotFoundError ∧
      ∀ m, ticks (n + 1 + m) r0 = ticks (n + 1) r0) ∧
    resolve (.obj [("foo", .obj [])]) (.obj [("path", .arr [.str "foo", .str "missing"])])
      = .ok (startRun (.obj [("foo", .obj [])]) [.str "foo", .str "missing"] .undefined) ∧
    (ticks 2 (startRun (.obj [("foo", .obj [])]) [.str "foo", .str "missing"]
      .undefined)).emitted = [⟨"error", NotFoundError⟩] := by
  refine ⟨?_, ?_, rfl, rfl⟩
  · intro c s rest r child index hc hpath hs hchild hvoid hindex hivoid
    rw [resolveObjectOrArray_fallback c s rest r child index
      (instanceofError_of_isContainer c hc) hpath hs hchild hvoid hindex, hivoid]
    rfl
  · intro t context r0 n c s q rest child index hstart hfresh hp hc hpath hs hchild hvoid
      hindex hivoid hnone
    obtain ⟨path0, error0, rfl⟩ := resolve_ok t context r0 hstart
    obtain ⟨hq, hcl⟩ := clean_ticks n _ (quiet_startRun t path0 error0)
      (clean_startRun t path0 error0 hfresh)
    have hne : (ticks n (startRun t path0 error0)).pending ≠ [] := by simp [hp]
    have hentry := RecoveryEntry.notFound c s rest child index q (hq.thrown_none hne) hp hc
      hpath hs hchild hvoid hindex hivoid
    obtain ⟨htick, -, hth⟩ := tick_recovery_no_handler _ _ _ hq hcl hentry hnone
    have hq0 : q = [] := by
      have := hq.pending_le
      rw [hp] at this
      simpa using this
    subst hq0
    have hstep : ticks (n + 1) (startRun t path0 error0)
        = tick (ticks n (startRun t path0 error0)) := by
      rw [ticks_add]; rfl
    have hfinal : (ticks (n + 1) (startRun t path0 error0)).pending = [] := by
      rw [hstep, htick]
    refine ⟨by rw [hstep, htick], hfinal, by rw [hstep, htick]; exact hth,
      by rw [hstep, htick]; exact hpath, by rw [hstep, htick], fun m => ?_⟩
    rw [ticks_add, ticks_of_pending_nil _ _ hfinal]

/-- C4 at a concrete input: the container `{}` reached in `{foo: {}}` with
`'missing'` at the front of the path. -/
theorem resolveObjectOrArray_notFound_witness :
    (ticks 2 (startRun (.obj [("foo", .obj [])]) [.str "foo", .str "missing"]
      .undefined)).emitted = [⟨"error", NotFoundError⟩] :=
  (resolveObjectOrArray_notFound.2.1 (.obj [("foo", .obj [])])
    (.obj [("path", .arr [.str "foo", .str "missing"])])
    (startRun (.obj [("foo", .obj [])]) [.str "foo", .str "missing"] .undefined)
    1 (.obj []) (.str "missing") [] [] .undefined .undefined
    rfl (by decide) rfl rfl rfl rfl rfl rfl rfl rfl
    (by
      show ∀ e ∈ [Value.obj [("foo", .obj [])], .obj []], exposedHandler e = none
      intro e he
      simp only [List.mem_cons, List.mem_singleton, List.not_mem_nil, or_false] at he
      rcases he with h | h <;> subst h <;> rfl)).1


/-! ## Success notifications never carry an error -/

/-- The scan keeps `NoErrorEnd`. -/
theorem noErrorEnd_resolveErrorLoop (err : Value) (r : Run) (n : Nat) (h : NoErrorEnd r) :
    NoErrorEnd (resolveErrorLoop err r n) := by
  induction n with
  | zero =>
    intro ev hev hname
    simp only [resolveErrorLoop, emit, List.mem_append, List.mem_singleton] at hev
    rcases hev with hev | hev
    · exact h ev hev hname
    · subst hev; simp at hname
  | succ i ih =>
    rw [resolveErrorLoop]
    split
    · exact ih
    · split
      · exact h
      · split
        · exact ih
        · exact h

/-- Error recovery keeps `NoErrorEnd`. -/
theorem noErrorEnd_resolveError (err : Value) (r : Run) (h : NoErrorEnd r) :
    NoErrorEnd (resolveError err r) := by
  unfold resolveError
  split
  · exact h
  · exact noErrorEnd_resolveErrorLoop err _ _ h

/-- An answer keeps `NoErrorEnd`. -/
theorem noErrorEnd_answer (x : Value) (r : Run) (h : NoErrorEnd r) :
    NoErrorEnd (answer x r) := by
  unfold answer
  split
  · exact noErrorEnd_resolveError x r h
  · next hx =>
    intro ev hev hname
    simp only [emit, List.mem_append, List.mem_singleton] at hev
    rcases hev with hev | hev
    · exact h ev hev hname
    · subst hev; simpa using hx

/-- The step of an object keeps `NoErrorEnd`. -/
theorem noErrorEnd_resolveObjectOrArray (v : Value) (r : Run) (h : NoErrorEnd r) :
    NoErrorEnd (resolveObjectOrArray v r) := by
  unfold resolveObjectOrArray
  simp only
  split
  · exact noErrorEnd_answer v _ h
  · split
    · exact h
    · split
      · exact h
      · split
        · exact h
        · split
          · exact h
          · exact noErrorEnd_answer _ _ h

/-- The step of a function keeps `NoErrorEnd`. -/
theorem noErrorEnd_resolveFunction (v : Value) (r : Run) (h : NoErrorEnd r) :
    NoErrorEnd (resolveFunction v r) := by
  unfold resolveFunction
  split
  · exact h
  · exact noErrorEnd_answer _ _ h
  · exact h
  · exact noErrorEnd_answer _ _ h

/-- Every deferred step keeps `NoErrorEnd`. -/
theorem noErrorEnd_resolveNextTick (v : Value) (r : Run) (h : NoErrorEnd r) :
    NoErrorEnd (resolveNextTick v r) := by
  cases v with
  | undefined => exact h
  | bool b => exact h
  | null => exact noErrorEnd_resolveObjectOrArray _ _ h
  | num n => exact noErrorEnd_answer _ _ h
  | str s => exact noErrorEnd_answer _ _ h
  | obj props => exact noErrorEnd_resolveObjectOrArray _ _ h
  | arr elems => exact noErrorEnd_resolveObjectOrArray _ _ h
  | error message => exact noErrorEnd_resolveObjectOrArray _ _ h
  | fn f => exact noErrorEnd_resolveFunction _ _ h

/-- Every state of a run keeps `NoErrorEnd`. -/
theorem noErrorEnd_ticks (n : Nat) (r : Run) (h : NoErrorEnd r) : NoErrorEnd (ticks n r) := by
  induction n generalizing r with
  | zero => exact h
  | succ n ih =>
    apply ih
    unfold tick
    split
    · exact h
    · split
      · exact h
      · exact noErrorEnd_resolveNextTick _ _ h

/-- No run started by `resolve` ever delivers an `Error` as a success value. -/
theorem noErrorEnd_of_resolve (t context : Value) (r0 : Run)
    (h : resolve t context = .ok r0) (n : Nat) : NoErrorEnd (ticks n r0) := by
  obtain ⟨path, error, rfl⟩ := resolve_ok t context r0 h
  exact noErrorEnd_ticks n _ (fun ev hev => by
    simp [startRun, resolveNextTickGenerator] at hev)

/-! ## Error recovery: the handler -/

/-- C8: when a step of a run started by `resolve` enters error recovery with no
error recorded yet, and some entry of the chain exposes a non-void `$error`, the
step schedules the `$error` of the entry with the highest index that exposes
one, records the error, and does nothing else: the path and the chain are the
ones recovery was entered with, nothing is emitted (the log stays empty) and
nothing is thrown. -/
theorem resolveError_most_recent_handler (t context : Value) (r0 : Run) (n : Nat)
    (err : Value) (entry : Run) (i : Nat) (handler : Value)
    (hstart : resolve t context = .ok r0)
    (hentry : RecoveryEntry (ticks n r0) err entry)
    (hfresh : typeOf entry.context.error ≠ "object")
    (hi : i < entry.context.chain.length)
    (hexp : exposedHandler (entry.context.chain.getD i .undefined) = some handler)
    (hrecent : ∀ j, i < j → j < entry.context.chain.length →
      exposedHandler (entry.context.chain.getD j .undefined) = none) :
    ticks (n + 1) r0 = resolveError err entry ∧
    resolveError err entry
      = { entry with context := { entry.context with error := err },
                     pending := [handler] } ∧
    (ticks (n + 1) r0).pending = [handler] ∧
    (ticks (n + 1) r0).context.error = err ∧
    (ticks (n + 1) r0).context.path = entry.context.path ∧
    (ticks (n + 1) r0).context.chain = entry.context.chain ∧
    (ticks (n + 1) r0).emitted = [] ∧
    (ticks (n + 1) r0).thrown = none := by
  have hq := quiet_of_resolve t context r0 hstart n
  obtain ⟨hp, hem, hth, -, -, hnull⟩ := recoveryEntry_quiet _ err entry hq hentry
  have key : resolveError err entry
      = { entry with context := { entry.context with error := err },
                     pending := [handler] } := by
    rw [resolveError_handler err entry i handler hfresh hnull hi hexp hrecent]
    simp [resolveNextTickGenerator, hp]
  have hstep : ticks (n + 1) r0 = resolveError err entry := by
    rw [ticks_add]
    exact tick_of_recoveryEntry _ err entry hentry
  refine ⟨hstep, key, by rw [hstep, key], by rw [hstep, key], by rw [hstep, key],
    by rw [hstep, key], by rw [hstep, key]; exact hem, by rw [hstep, key]; exact hth⟩

/-- C8 at a concrete input: in `{a: {b: <throws X>, $error: <handler>}}` with
the path `['a', 'b']` the third step enters recovery with the chain
`[root, a, b]`; entry `1`, the container `a`, is the most recent one with a
handler. -/
theorem resolveError_most_recent_handler_witness :
    (ticks 3 (startRun (rootThrowing (.error "X")) [.str "a", .str "b"] .undefined)).pending
      = [.fn (.complete (.str "Recovered") .undefined)] :=
  (resolveError_most_recent_handler (rootThrowing (.error "X"))
    (.obj [("path", .arr [.str "a", .str "b"])])
    (startRun (rootThrowing (.error "X")) [.str "a", .str "b"] .undefined) 2
    (.error "X") _ 1 (.fn (.complete (.str "Recovered") .undefined))
    rfl
    (RecoveryEntry.thrown (.error "X") [] rfl rfl rfl)
    (by decide) (by decide) rfl
    (by
      intro j h1 h2
      have h3 : j < 3 := h2
      have h4 : j = 2 := by omega
      subst h4
      rfl)).2.2.1

/-! ## Functions that throw -/

/-- C9 (as stated, refuted): a function that throws the string `'X'`, which is
not an `Error`, in `{a: {b: <throws 'X'>, $error: <completes with
'Recovered'>}}` with the path `['a', 'b']`: the run ends after three steps with
`'X'` delivered as the success value; the handler is never scheduled and
`'Recovered'` is never emitted. -/
theorem resolveFunction_throws_string_delivered :
    (ticks 3 (startRun (rootThrowing (.str "X")) [.str "a", .str "b"] .undefined)).emitted
      = [⟨"end", .str "X"⟩] ∧
    (ticks 3 (startRun (rootThrowing (.str "X")) [.str "a", .str "b"] .undefined)).pending
      = [] ∧
    (ticks 5 (startRun (rootThrowing (.str "X")) [.str "a", .str "b"] .undefined)).emitted
      = [⟨"end", .str "X"⟩] ∧
    (ticks 3 (startRun (rootThrowing (.str "X")) [.str "a", .str "b"]
      .undefined)).context.error = .undefined :=
  ⟨rfl, rfl, rfl, rfl⟩

/-- The run of `{a: {b: <throws X>, $error: <completes with 'Recovered'>}}`
with the path `['a', 'b']`, for an `Error` `X`, after five turns. -/
theorem ticks_rootThrowing (message : String) :
    ticks 5 (startRun (rootThrowing (.error message)) [.str "a", .str "b"] .undefined)
      = ⟨⟨[], [rootThrowing (.error message),
                .obj [("b", .fn (.throws (.error message))),
                      ("$error", .fn (.complete (.str "Recovered") .undefined))],
                .fn (.throws (.error message)),
                .fn (.complete (.str "Recovered") .undefined),
                .str "Recovered"], .error message⟩,
          [], [⟨"end", .str "Recovered"⟩], none⟩ := by
  simp [ticks, tick, startRun, resolveNextTickGenerator, rootThrowing, resolveNextTick,
    resolveType, typeOf, resolveObjectOrArray, contextArg, instanceofError, testVoidSegment,
    testVoidVariable, getProp, toPropertyKey, List.lookup, resolveFunction, answer,
    resolveError, resolveErrorLoop, ErrorPropertyName, IndexPropertyName,
    resolveFunctionCallback, resolveStringOrNumber, emit]

/-- C9 (amended): (1) a value thrown synchronously by a function is handed to
`answer`: an `Error` instance goes to error recovery, and no run ever delivers
an `Error` as a success value; (2) any other thrown value is delivered as the
success value.  (3) For every `Error` `X`, the run of `{a: {b: <throws X>,
$error: <completes with 'Recovered'>}}` with the path `['a', 'b']` ends with the
single notification `'end'` carrying `'Recovered'`.  (4) In a run started from
a descriptor that carries no error object, when no visited value, the function
included, exposes a non-void `$error`, the step of a function that throws the
`Error` `X` ends the run with the single notification `'error'` carrying `X`. -/
theorem resolveFunction_throws :
    (∀ (x : Value) (r : Run), instanceofError x = true →
      resolveFunction (.fn (.throws x)) r = resolveError x r) ∧
    (∀ (t context : Value) (r0 : Run) (n : Nat), resolve t context = .ok r0 →
      ∀ ev ∈ (ticks n r0).emitted, ev.name = "end" → instanceofError ev.arg = false) ∧
    (∀ (x : Value) (r : Run), instanceofError x = false →
      resolveFunction (.fn (.throws x)) r = emit "end" x r) ∧
    (∀ (message : String) (m : Nat),
      (ticks (5 + m) (startRun (rootThrowing (.error message)) [.str "a", .str "b"]
        .undefined)).emitted = [⟨"end", .str "Recovered"⟩] ∧
      (ticks (5 + m) (startRun (rootThrowing (.error message)) [.str "a", .str "b"]
        .undefined)).pending = [] ∧
      (ticks (5 + m) (startRun (rootThrowing (.error message)) [.str "a", .str "b"]
        .undefined)).thrown = none) ∧
    (∀ (t context : Value) (r0 : Run) (n : Nat) (x : Value) (q : List Value),
      resolve t context = .ok r0 → typeOf r0.context.error ≠ "object" →
      (ticks n r0).pending = .fn (.throws x) :: q → instanceofError x = true →
      (∀ e ∈ (ticks n r0).context.chain, exposedHandler e = none) →
      (ticks (n + 1) r0).emitted = [⟨"error", x⟩] ∧
      (ticks (n + 1) r0).pending = [] ∧
      (ticks (n + 1) r0).thrown = none ∧
      ∀ m, ticks (n + 1 + m) r0 = ticks (n + 1) r0) ∧
    (∀ message : String,
      (ticks 3 (startRun (rootThrowingBare (.error message)) [.str "a", .str "b"]
        .undefined)).emitted = [⟨"error", .error message⟩]) := by
  refine ⟨?_, ?_, ?_, ?_, ?_, fun _ => rfl⟩
  · intro x r hx
    simp [resolveFunction, answer, hx]
  · intro t context r0 n hstart
    exact noErrorEnd_of_resolve t context r0 hstart n
  · intro x r hx
    simp [resolveFunction, answer, hx]
  · intro message m
    have h5 := ticks_rootThrowing message
    rw [ticks_add, ticks_of_pending_nil _ _ (by rw [h5]), h5]
    exact ⟨rfl, rfl, rfl⟩
  · intro t context r0 n x q hstart hfresh hp hx hnone
    obtain ⟨path0, error0, rfl⟩ := resolve_ok t context r0 hstart
    obtain ⟨hq, hcl⟩ := clean_ticks n _ (quiet_startRun t path0 error0)
      (clean_startRun t path0 error0 hfresh)
    have hne : (ticks n (startRun t path0 error0)).pending ≠ [] := by simp [hp]
    have hentry := RecoveryEntry.thrown x q (hq.thrown_none hne) hp hx
    obtain ⟨htick, -, hth⟩ := tick_recovery_no_handler _ _ _ hq hcl hentry (by
      intro e he
      rcases List.mem_append.1 he with he | he
      · exact hnone e he
      · rw [List.mem_singleton.1 he]; rfl)
    have hq0 : q = [] := by
      have := hq.pending_le
      rw [hp] at this
      simpa using this
    subst hq0
    have hstep : ticks (n + 1) (startRun t path0 error0)
        = tick (ticks n (startRun t path0 error0)) := by
      rw [ticks_add]; rfl
    have hfinal : (ticks (n + 1) (startRun t path0 error0)).pending = [] := by
      rw [hstep, htick]
    refine ⟨by rw [hstep, htick], hfinal, by rw [hstep, htick]; exact hth, fun m => ?_⟩
    rw [ticks_add, ticks_of_pending_nil _ _ hfinal]

/-- C9 (amended) at a concrete input: the function that throws the `Error`
`X` in `{a: {b: <throws X>}}`, reached with the path `['a', 'b']`. -/
theorem resolveFunction_throws_witness :
    (ticks 3 (startRun (rootThrowingBare (.error "X")) [.str "a", .str "b"]
      .undefined)).emitted = [⟨"error", .error "X"⟩] :=
  (resolveFunction_throws.2.2.2.2.1 (rootThrowingBare (.error "X"))
    (.obj [("path", .arr [.str "a", .str "b"])])
    (startRun (rootThrowingBare (.error "X")) [.str "a", .str "b"] .undefined)
    2 (.error "X") [] rfl (by decide) rfl rfl
    (by
      show ∀ e ∈ [rootThrowingBare (.error "X"), .obj [("b", .fn (.throws (.error "X")))]],
        exposedHandler e = none
      intro e he
      simp only [List.mem_cons, List.mem_singleton, List.not_mem_nil, or_false] at he
      rcases he with h | h <;> subst h <;> rfl)).1

/-! ## Functions that answer through the callback -/

/-- C10 (as stated, refuted): the function that answers `complete('oops', 'v')`,
resolved with the empty path: the first argument is not null and not an `Error`;
the run does not fail, it ends with `'oops'` delivered as the success value, and
no error is recorded. -/
theorem resolveFunctionCallback_string_delivered :
    (ticks 2 (startRun (.fn (.complete (.str "oops") (.str "v"))) [] .undefined)).emitted
      = [⟨"end", .str "oops"⟩] ∧
    (ticks 2 (startRun (.fn (.complete (.str "oops") (.str "v"))) [] .undefined)).pending
      = [] ∧
    (ticks 2 (startRun (.fn (.complete (.str "oops") (.str "v"))) []
      .undefined)).context.error = .undefined :=
  ⟨rfl, rfl, rfl⟩

/-- C10 (amended): a function that answers once with `complete(e, v)`.  (1) If
`e` is `null` the run continues with `v` as the next target.  (2) Otherwise it
continues with `e` as the next target, whatever `v` is.  (3) When `e` is an
`Error`, the step of `e` takes one segment from the path and hands `e` to error
recovery, and no run delivers an `Error` as a success value.  (4) When `e` is a
string or a number, the step of `e` delivers `e` as the success value.  So
`complete(new Error('oops'), 'v')` resolved with the empty path ends with the
failure carrying the error. -/
theorem resolveFunction_complete :
    (∀ (v : Value) (r : Run),
      resolveFunction (.fn (.complete .null v)) r = resolveNextTickGenerator v r) ∧
    (∀ (e v v' : Value) (r : Run), e ≠ .null →
      resolveFunction (.fn (.complete e v)) r = resolveNextTickGenerator e r ∧
      resolveFunction (.fn (.complete e v)) r = resolveFunction (.fn (.complete e v')) r) ∧
    (∀ (message : String) (r : Run) (rest : List Value),
      r.thrown = none → r.pending = .error message :: rest →
      tick r = resolveError (.error message)
        { r with pending := rest,
                 context := { path := r.context.path.tail,
                              chain := r.context.chain ++ [.error message],
                              error := r.context.error } }) ∧
    (∀ (t context : Value) (r0 : Run) (n : Nat), resolve t context = .ok r0 →
      ∀ ev ∈ (ticks n r0).emitted, ev.name = "end" → instanceofError ev.arg = false) ∧
    (∀ (e : Value) (r : Run) (rest : List Value),
      typeOf e = "string" ∨ typeOf e = "number" →
      r.thrown = none → r.pending = e :: rest →
      (tick r).emitted = r.emitted ++ [⟨"end", e⟩] ∧ (tick r).pending = rest) ∧
    (∀ message : String,
      (ticks 2 (startRun (.fn (.complete (.error message) (.str "v"))) []
        .undefined)).emitted = [⟨"error", .error message⟩]) := by
  refine ⟨fun _ _ => rfl, ?_, ?_, ?_, ?_, fun _ => rfl⟩
  · intro e v v' r he
    have key : ∀ w, resolveFunction (.fn (.complete e w)) r = resolveNextTickGenerator e r := by
      intro w
      cases e <;> first | rfl | exact absurd rfl he
    exact ⟨key v, by rw [key v, key v']⟩
  · intro message r rest ht hp
    rw [tick_of_recoveryEntry r _ _ (RecoveryEntry.errorTarget message rest ht hp)]
    congr 1
    obtain ⟨⟨path, chain, error⟩, pending, emitted, thrown⟩ := r
    cases path <;> rfl
  · intro t context r0 n hstart
    exact noErrorEnd_of_resolve t context r0 hstart n
  · intro e r rest he ht hp
    rw [tick_cons r e rest ht hp]
    cases e <;> simp [typeOf] at he <;> exact ⟨rfl, rfl⟩

/-- C10 (amended) at a concrete input: the deferred step of the `Error` that
`complete(new Error('oops'), 'v')` has scheduled, with `['a']` as the path. -/
theorem resolveFunction_complete_witness :
    tick (resolveFunction (.fn (.complete (.error "oops") (.str "v")))
        ⟨⟨[.str "a"], [], .undefined⟩, [], [], none⟩)
      = resolveError (.error "oops")
          ⟨⟨[], [.error "oops"], .undefined⟩, [], [], none⟩ :=
  resolveFunction_complete.2.2.1 "oops"
    (resolveFunction (.fn (.complete (.error "oops") (.str "v")))
      ⟨⟨[.str "a"], [], .undefined⟩, [], [], none⟩) [] rfl rfl


/-! ## The default case of the entry point -/

/-- C14 (the code at the second arguments that are no function, object or
string): for `undefined`, a number or a boolean the switch of `resolve` takes
the default case and builds the descriptor `{}`, which has no `path`; the test
of the path then throws `PathNotArrayError`, for every target, so no run starts
and nothing is emitted.  The descriptor `{path: []}` written by hand starts the
run with the empty path, which delivers a string or a number target, and a
container target itself, as the success value. -/
theorem resolve_default_throws (t : Value) :
    createContext .undefined = .obj [] ∧
    (∀ n : Int, createContext (.num n) = .obj []) ∧
    (∀ b : Bool, createContext (.bool b) = .obj []) ∧
    getProp (.obj []) "path" = .ok .undefined ∧
    resolve t .undefined = .error PathNotArrayError ∧
    (∀ n : Int, resolve t (.num n) = .error PathNotArrayError) ∧
    (∀ b : Bool, resolve t (.bool b) = .error PathNotArrayError) ∧
    resolve t (.obj [("path", .arr [])]) = .ok (startRun t [] .undefined) ∧
    (∀ s : String, (ticks 1 (startRun (.str s) [] .undefined)).emitted = [⟨"end", .str s⟩]) ∧
    (∀ props, (ticks 1 (startRun (.obj props) [] .undefined)).emitted
      = [⟨"end", .obj props⟩]) :=
  ⟨rfl, fun _ => rfl, fun _ => rfl, rfl, rfl, fun _ => rfl, fun _ => rfl, rfl,
    fun _ => rfl, fun _ => rfl⟩

/-! ## The path cursor -/

/-- C16 (as stated, refuted): on the empty path `context.arg()` returns
`undefined` and leaves the path empty, and `context.unarg(undefined)` then puts
`undefined` at its front: the path has one element where it had none. -/
theorem contextUnArg_contextArg_empty :
    (contextArg ⟨[], [], .undefined⟩).1 = .undefined ∧
    (contextUnArg (contextArg ⟨[], [], .undefined⟩).1
      (contextArg ⟨[], [], .undefined⟩).2).path = [.undefined] ∧
    (contextUnArg (contextArg ⟨[], [], .undefined⟩).1
      (contextArg ⟨[], [], .undefined⟩).2).path.length = 1 ∧
    (⟨[], [], .undefined⟩ : Context).path.length = 0 :=
  ⟨rfl, rfl, rfl, rfl⟩

/-- C16 (amended): for every path that is not empty, taking the next segment
and restoring the value just returned leaves the context, and so the contents
and the length of the path, exactly as before.  The engine restores only a
segment it has taken and found non-void: the step of a container whose child at
that segment is void hands the run on with the path it had before the step. -/
theorem contextUnArg_contextArg (c : Context) (hpath : c.path ≠ []) :
    contextUnArg (contextArg c).1 (contextArg c).2 = c ∧
    (contextUnArg (contextArg c).1 (contextArg c).2).path = c.path ∧
    (contextUnArg (contextArg c).1 (contextArg c).2).path.length = c.path.length ∧
    (∀ (v s : Value) (rest : List Value) (r : Run) (child index : Value),
      instanceofError v = false → r.context.path = s :: rest → testVoidSegment s = false →
      getProp v (toPropertyKey s) = .ok child → testVoidVariable child = true →
      getProp v IndexPropertyName = .ok index →
      resolveObjectOrArray v r =
        if testVoidVariable index then answer NotFoundError r
        else resolveNextTickGenerator index r) := by
  have key : contextUnArg (contextArg c).1 (contextArg c).2 = c := by
    obtain ⟨path, chain, error⟩ := c
    cases path with
    | nil => exact absurd rfl hpath
    | cons s rest => rfl
  refine ⟨key, by rw [key], by rw [key], ?_⟩
  intro v s rest r child index hv hp hs hchild hvoid hindex
  exact resolveObjectOrArray_fallback v s rest r child index hv hp hs hchild hvoid hindex

/-- C16 (amended) at a concrete input: the path `['a', 'b']`. -/
theorem contextUnArg_contextArg_witness :
    contextUnArg (contextArg ⟨[.str "a", .str "b"], [], .undefined⟩).1
        (contextArg ⟨[.str "a", .str "b"], [], .undefined⟩).2
      = ⟨[.str "a", .str "b"], [], .undefined⟩ :=
  (contextUnArg_contextArg ⟨[.str "a", .str "b"], [], .undefined⟩ (by simp)).1

/-! ## Values outside the categories -/

/-- C18 (as stated, refuted): `null` as the root with the empty path.  Its
`typeof` is `'object'`, so its step is the one of an object with the path
exhausted: the run ends with `null` delivered as the success value and nothing
is thrown.  The same happens when a function answers `complete(null, null)`. -/
theorem resolveNextTick_null_delivered :
    typeOf .null = "object" ∧
    (ticks 1 (startRun .null [] .undefined)).emitted = [⟨"end", .null⟩] ∧
    (ticks 1 (startRun .null [] .undefined)).thrown = none ∧
    (ticks 1 (startRun .null [] .undefined)).pending = [] ∧
    (ticks 2 (startRun (.fn (.complete .null .null)) [] .undefined)).emitted
      = [⟨"end", .null⟩] ∧
    (ticks 2 (startRun (.fn (.complete .null .null)) [] .undefined)).thrown = none :=
  ⟨rfl, rfl, rfl, rfl, rfl, rfl⟩

/-- C18 (amended): (1) the step of a boolean or of `undefined` finds no member
of the module to call and raises a `TypeError`: the target is appended to the
chain, nothing is emitted and nothing is scheduled.  (2) The step of `null` is
the step of an object: with a non-void segment at the front of the path, reading
the property of `null` raises a `TypeError`, the segment taken, nothing emitted
and nothing scheduled; (3) with the path exhausted, or a void segment at its
front, `null` is delivered as the success value.  (4) So a run whose root is a
boolean or `undefined`, and a run in which a function answers with one, ends
with the `TypeError` thrown and no notification. -/
theorem resolveNextTick_outside_categories :
    (∀ (b : Bool) (r : Run),
      resolveNextTick (.bool b) r = raise typeError
        { r with context := { r.context with chain := r.context.chain ++ [.bool b] } }) ∧
    (∀ r : Run,
      resolveNextTick .undefined r = raise typeError
        { r with context := { r.context with chain := r.context.chain ++ [.undefined] } }) ∧
    (∀ (r : Run) (s : Value) (rest : List Value),
      r.context.path = s :: rest → testVoidSegment s = false →
      resolveNextTick .null r = raise typeError
        { r with context := { path := rest, chain := r.context.chain ++ [.null],
                              error := r.context.error } }) ∧
    (∀ (r : Run) (s : Value) (rest : List Value),
      r.context.path = s :: rest → testVoidSegment s = true →
      resolveNextTick .null r = emit "end" .null
        { r with context := { path := rest, chain := r.context.chain ++ [.null],
                              error := r.context.error } }) ∧
    (∀ r : Run, r.context.path = [] →
      resolveNextTick .null r = emit "end" .null
        { r with context := { r.context with chain := r.context.chain ++ [.null] } }) ∧
    (∀ (b : Bool) (path : List Value) (error : Value) (m : Nat),
      (ticks (1 + m) (startRun (.bool b) path error)).thrown = some typeError ∧
      (ticks (1 + m) (startRun (.bool b) path error)).emitted = [] ∧
      (ticks (1 + m) (startRun (.bool b) path error)).pending = []) ∧
    (∀ (path : List Value) (error : Value) (m : Nat),
      (ticks (1 + m) (startRun .undefined path error)).thrown = some typeError ∧
      (ticks (1 + m) (startRun .undefined path error)).emitted = [] ∧
      (ticks (1 + m) (startRun .undefined path error)).pending = []) ∧
    (∀ (b : Bool) (alt : Value) (path : List Value) (error : Value) (m : Nat),
      (ticks (2 + m) (startRun (.fn (.complete (.bool b) alt)) path error)).thrown
        = some typeError ∧
      (ticks (2 + m) (startRun (.fn (.complete (.bool b) alt)) path error)).emitted = [] ∧
      (ticks (2 + m) (startRun (.fn (.complete (.bool b) alt)) path error)).pending = []) := by
  refine ⟨fun _ _ => rfl, fun _ => rfl, ?_, ?_, ?_, ?_, ?_, ?_⟩
  · intro r s rest hp hs
    obtain ⟨⟨path, chain, error⟩, pending, emitted, thrown⟩ := r
    simp only at hp
    subst hp
    simp [resolveNextTick, resolveType, typeOf, resolveObjectOrArray, contextArg,
      instanceofError, hs, getProp]
  · intro r s rest hp hs
    obtain ⟨⟨path, chain, error⟩, pending, emitted, thrown⟩ := r
    simp only at hp
    subst hp
    simp [resolveNextTick, resolveType, typeOf, resolveObjectOrArray, contextArg,
      instanceofError, hs, answer]
  · intro r hp
    obtain ⟨⟨path, chain, error⟩, pending, emitted, thrown⟩ := r
    simp only at hp
    subst hp
    simp [resolveNextTick, resolveType, typeOf, resolveObjectOrArray, contextArg,
      instanceofError, testVoidSegment, testVoidVariable, answer]
  · intro b path error m
    rw [ticks_add, ticks_of_pending_nil _ _ rfl]
    exact ⟨rfl, rfl, rfl⟩
  · intro path error m
    rw [ticks_add, ticks_of_pending_nil _ _ rfl]
    exact ⟨rfl, rfl, rfl⟩
  · intro b alt path error m
    rw [ticks_add, ticks_of_pending_nil _ _ rfl]
    exact ⟨rfl, rfl, rfl⟩

/-- C18 (amended) at a concrete input: `null` dispatched with `'a'` at the
front of the path. -/
theorem resolveNextTick_outside_categories_witness :
    resolveNextTick .null ⟨⟨[.str "a"], [], .undefined⟩, [], [], none⟩
      = raise typeError ⟨⟨[], [.null], .undefined⟩, [], [], none⟩ :=
  resolveNextTick_outside_categories.2.2.1 ⟨⟨[.str "a"], [], .undefined⟩, [], [], none⟩
    (.str "a") [] rfl rfl


/-! ## The leading separator -/

/-- The split of a text that starts with the separator starts with an empty
segment, followed by the split of the rest. -/
theorem split_slash_append (s : String) :
    split ("/" ++ s) '/' = "" :: split s '/' := by
  simp [split, String.data_append, splitChars]

/-- The split of a text that starts with another character does not start with
an empty segment. -/
theorem split_head_ne_empty (s : String) (c : Char) (cs : List Char)
    (hs : s.data = c :: cs) (hc : c ≠ '/') : (split s '/').head? ≠ some "" := by
  unfold split
  rw [hs]
  unfold splitChars
  rw [if_neg hc]
  split
  · next h => exact absurd h (splitChars_ne_nil '/' cs)
  · next seg segs h =>
    simp only [List.map_cons, List.head?_cons, ne_eq, Option.some.injEq]
    intro h'
    have := congrArg String.data h'
    simp at this

/-- C17 (as stated, refuted): for the empty string `s`, `'/' + s` is `'/'`,
which splits into two empty segments of which one is removed: the run has the
path `['']`, where `resolve(t, '')` has the empty path.  On the tree
`{'': 'x'}` the first run delivers `'x'` and the second the tree itself.  For
`s = '/a'` the paths are `['', 'a']` and `['a']`. -/
theorem resolve_slash_empty :
    resolve (.obj [("", .str "x")]) (.str ("/" ++ ""))
      = .ok (startRun (.obj [("", .str "x")]) [.str ""] .undefined) ∧
    resolve (.obj [("", .str "x")]) (.str "")
      = .ok (startRun (.obj [("", .str "x")]) [] .undefined) ∧
    (ticks 2 (startRun (.obj [("", .str "x")]) [.str ""] .undefined)).emitted
      = [⟨"end", .str "x"⟩] ∧
    (ticks 2 (startRun (.obj [("", .str "x")]) [] .undefined)).emitted
      = [⟨"end", .obj [("", .str "x")]⟩] ∧
    resolve .null (.str ("/" ++ "/a")) = .ok (startRun .null [.str "", .str "a"] .undefined) ∧
    resolve .null (.str "/a") = .ok (startRun .null [.str "a"] .undefined) :=
  ⟨rfl, rfl, rfl, rfl, rfl, rfl⟩

/-- C17 (amended): for every string `s` that is not empty and does not itself
start with `'/'`, `resolve(t, '/' + s)` is the same call as `resolve(t, s)`: it
starts the same run, with the same path, and so has the same outcome, for every
target.  In general exactly one leading empty segment is removed: the path of
`'/' + s` is the whole split of `s`. -/
theorem resolve_leading_slash (t : Value) (s : String) (c : Char) (cs : List Char)
    (hs : s.data = c :: cs) (hc : c ≠ '/') :
    resolve t (.str ("/" ++ s)) = resolve t (.str s) ∧
    resolve t (.str ("/" ++ s))
      = .ok (startRun t ((split s '/').map .str) .undefined) ∧
    (∀ s' : String, resolve t (.str ("/" ++ s'))
      = .ok (startRun t ((split s' '/').map .str) .undefined)) := by
  have h1 : ∀ s' : String, resolve t (.str ("/" ++ s'))
      = .ok (startRun t ((split s' '/').map .str) .undefined) := by
    intro s'
    have : resolve t (.str ("/" ++ s')) = .ok (startRun t
        ((if (split ("/" ++ s') '/').head? = some "" then (split ("/" ++ s') '/').tail
          else split ("/" ++ s') '/').map .str) .undefined) := rfl
    rw [this, split_slash_append]
    simp
  have h2 : resolve t (.str s) = .ok (startRun t
      ((if (split s '/').head? = some "" then (split s '/').tail
        else split s '/').map .str) .undefined) := rfl
  rw [if_neg (split_head_ne_empty s c cs hs hc)] at h2
  exact ⟨by rw [h1 s, h2], h1 s, h1⟩

/-- C17 (amended) at a concrete input: `'/foo/yam'` and `'foo/yam'`. -/
theorem resolve_leading_slash_witness :
    resolve sample (.str ("/" ++ "foo/yam")) = resolve sample (.str "foo/yam") :=
  (resolve_leading_slash sample "foo/yam" 'f' "oo/yam".data rfl (by decide)).1

/-! ## The test of the path -/

/-- The call, statement by statement, has the result of `resolve`. -/
theorem resolveCall_result (t context : Value) :
    (resolveCall t context).result = resolve t context := by
  have base : ∀ c, typeOf c ≠ "function" → (resolveCall t c).result = resolve t c := by
    intro c hc
    rw [resolve_of_not_function t c hc]
    have : resolveCall t c =
        match getProp (createContext c) "path" with
        | .error e => ⟨.error e, []⟩
        | .ok path =>
          match path with
          | .arr segments =>
            match getProp (createContext c) "error" with
            | .error e => ⟨.error e, []⟩
            | .ok error =>
              ⟨.ok (startRun t segments error),
                assignUnlessFunction (createContext c) "arg"
                  ++ assignUnlessFunction (createContext c) "unarg" ++ ["chain", "events"]⟩
          | _ => ⟨.error PathNotArrayError, []⟩ := by
      cases c <;> first | rfl | exact absurd rfl hc
    rw [this]
    split
    · rfl
    · split
      · split <;> rfl
      · rfl
  have notfn : ∀ c : Value, (∀ x, c = .fn (.returns x) → False) →
      (∀ x, c = .fn (.throws x) → False) → (∀ a b, c = .fn (.complete a b) → False) →
      typeOf c ≠ "function" := by
    intro c h1 h2 h3
    cases c with
    | fn f =>
      cases f with
      | complete a b => exact absurd rfl (h3 a b)
      | throws x => exact absurd rfl (h2 x)
      | returns x => exact absurd rfl (h1 x)
    | _ => simp [typeOf]
  induction context using resolve.induct t with
  | case1 c ih => rw [resolveCall, resolve]; exact ih
  | case2 x => rfl
  | case3 a b => rfl
  | case4 c h1 h2 h3 => exact base c (notfn c h1 h2 h3)
  | case5 c h1 h2 h3 => exact base c (notfn c h1 h2 h3)
  | case6 c h1 h2 h3 => exact base c (notfn c h1 h2 h3)
  | case7 c h1 h2 h3 => exact base c (notfn c h1 h2 h3)

/-- C13: for every descriptor object `c` (a value whose `typeof` is `'object'`
and that has properties, so not `null`), `resolve(t, c)` throws
`PathNotArrayError` if and only if `c.path` is not an array.  When it throws,
the call has assigned nothing on `c`, neither `arg` nor `unarg` nor `chain` nor
`events`, and it has started no run: there is no deferred step and no emitter
that could ever notify.  When `c.path` is an array the call starts the run and
creates the chain. -/
theorem resolve_pathNotArray (t c : Value) (hobj : typeOf c = "object") (hnull : c ≠ .null) :
    (resolve t c = .error PathNotArrayError ↔
      ∀ p, getProp c "path" = .ok p → instanceofArray p = false) ∧
    (resolveCall t c).result = resolve t c ∧
    (resolve t c = .error PathNotArrayError →
      (resolveCall t c).assigned = [] ∧ ∀ r, (resolveCall t c).result ≠ .ok r) ∧
    (∀ segments, getProp c "path" = .ok (.arr segments) →
      (∃ error, resolve t c = .ok (startRun t segments error)) ∧
      "chain" ∈ (resolveCall t c).assigned) := by
  have hcc : createContext c = c := by
    cases c <;> simp [typeOf] at hobj <;> rfl
  have hne : typeOf c ≠ "function" := by rw [hobj]; decide
  obtain ⟨p, hp⟩ : ∃ p, getProp c "path" = .ok p := by
    cases c <;> simp [typeOf] at hobj <;> first | exact absurd rfl hnull | exact ⟨_, rfl⟩
  obtain ⟨e, he⟩ : ∃ e, getProp c "error" = .ok e := by
    cases c <;> simp [typeOf] at hobj <;> first | exact absurd rfl hnull | exact ⟨_, rfl⟩
  have hcallc : resolveCall t c =
      match getProp (createContext c) "path" with
      | .error e => ⟨.error e, []⟩
      | .ok path =>
        match path with
        | .arr segments =>
          match getProp (createContext c) "error" with
          | .error e => ⟨.error e, []⟩
          | .ok error =>
            ⟨.ok (startRun t segments error),
              assignUnlessFunction (createContext c) "arg"
                ++ assignUnlessFunction (createContext c) "unarg" ++ ["chain", "events"]⟩
        | _ => ⟨.error PathNotArrayError, []⟩ := by
    cases c <;> first | rfl | exact absurd rfl hne
  have harr : ∀ segments, p = .arr segments →
      resolve t c = .ok (startRun t segments e) ∧
      resolveCall t c = ⟨.ok (startRun t segments e),
        assignUnlessFunction c "arg" ++ assignUnlessFunction c "unarg"
          ++ ["chain", "events"]⟩ := by
    intro segments hseg
    subst hseg
    constructor
    · rw [resolve_of_not_function t c hne, hcc, hp]
      simp only [he]
    · rw [hcallc, hcc, hp]
      simp only [he]
  have hnot : instanceofArray p = false →
      resolve t c = .error PathNotArrayError ∧
      resolveCall t c = ⟨.error PathNotArrayError, []⟩ := by
    intro hp'
    constructor
    · rw [resolve_of_not_function t c hne, hcc, hp]
      cases p <;> first | rfl | simp [instanceofArray] at hp'
    · rw [hcallc, hcc, hp]
      cases p <;> first | rfl | simp [instanceofArray] at hp'
  refine ⟨?_, resolveCall_result t c, ?_, ?_⟩
  · constructor
    · intro h q hq
      rw [hp] at hq
      simp only [Except.ok.injEq] at hq
      subst hq
      cases hq' : instanceofArray p
      · rfl
      · cases p <;> simp [instanceofArray] at hq'
        rw [(harr _ rfl).1] at h
        simp at h
    · intro h
      exact (hnot (h p hp)).1
  · intro h
    have hp' : instanceofArray p = false := by
      cases hq' : instanceofArray p
      · rfl
      · cases p <;> simp [instanceofArray] at hq'
        rw [(harr _ rfl).1] at h
        simp at h
    rw [(hnot hp').2]
    exact ⟨rfl, fun r hr => by simp at hr⟩
  · intro segments hseg
    rw [hp] at hseg
    simp only [Except.ok.injEq] at hseg
    obtain ⟨h1, h2⟩ := harr segments hseg
    rw [h1, h2]
    exact ⟨⟨e, rfl⟩, by simp⟩

/-- C13 at a concrete input: the descriptor `{path: 'foo'}`, whose path is a
string. -/
theorem resolve_pathNotArray_witness :
    resolve sample (.obj [("path", .str "foo")]) = .error PathNotArrayError ∧
    (resolveCall sample (.obj [("path", .str "foo")])).assigned = [] :=
  ⟨(resolve_pathNotArray sample (.obj [("path", .str "foo")]) rfl (by simp)).1.2
      (by intro p hp; cases hp; rfl),
   ((resolve_pathNotArray sample (.obj [("path", .str "foo")]) rfl (by simp)).2.2.1
      rfl).1⟩


/-! ## Thrown and reported errors -/

/-- C11 (the code at a function that throws and at one that reports the same
`Error`): a thrown `Error` enters error recovery in the step of the function,
with the path as it is; a reported one is scheduled as a target, and its step
takes a segment from the path before the `Error` is recognised, so recovery is
entered one turn later with the path one segment shorter (and with the `Error`
itself on the chain).  In `{a: {b: f, $error: {x: 'one'}}}` with the path
`['a', 'b', 'x']` both select the handler of `a`; after the throw the handler
is resolved with `['x']` and the run delivers `'one'`, after the report it is
resolved with the empty path and the run delivers the handler `{x: 'one'}`
itself. -/
theorem resolveFunction_throw_versus_report :
    (∀ (message : String) (path chain : List Value) (error : Value),
      tick ⟨⟨path, chain, error⟩, [.fn (.throws (.error message))], [], none⟩
        = resolveError (.error message)
            ⟨⟨path, chain ++ [.fn (.throws (.error message))], error⟩, [], [], none⟩) ∧
    (∀ (message : String) (alt : Value) (path chain : List Value) (error : Value),
      ticks 2 ⟨⟨path, chain, error⟩, [.fn (.complete (.error message) alt)], [], none⟩
        = resolveError (.error message)
            ⟨⟨path.tail,
              chain ++ [.fn (.complete (.error message) alt), .error message], error⟩,
              [], [], none⟩) ∧
    (ticks 3 (startRun (rootAnswering (.throws (.error "X")))
      [.str "a", .str "b", .str "x"] .undefined)).context.path = [.str "x"] ∧
    (ticks 3 (startRun (rootAnswering (.throws (.error "X")))
      [.str "a", .str "b", .str "x"] .undefined)).pending = [.obj [("x", .str "one")]] ∧
    (ticks 4 (startRun (rootAnswering (.complete (.error "X") .undefined))
      [.str "a", .str "b", .str "x"] .undefined)).context.path = [] ∧
    (ticks 4 (startRun (rootAnswering (.complete (.error "X") .undefined))
      [.str "a", .str "b", .str "x"] .undefined)).pending = [.obj [("x", .str "one")]] ∧
    (ticks 5 (startRun (rootAnswering (.throws (.error "X")))
      [.str "a", .str "b", .str "x"] .undefined)).emitted = [⟨"end", .str "one"⟩] ∧
    (ticks 5 (startRun (rootAnswering (.complete (.error "X") .undefined))
      [.str "a", .str "b", .str "x"] .undefined)).emitted
      = [⟨"end", .obj [("x", .str "one")]⟩] := by
  refine ⟨?_, ?_, rfl, rfl, rfl, rfl, rfl, rfl⟩
  · intro message path chain error
    simp [tick, resolveNextTick, resolveType, typeOf, resolveFunction, answer, instanceofError]
  · intro message alt path chain error
    cases path <;>
      simp [ticks, tick, resolveNextTick, resolveType, typeOf, resolveFunction,
        resolveFunctionCallback, resolveNextTickGenerator, resolveObjectOrArray, contextArg,
        answer, instanceofError]

/-! ## The second failure -/

/-- The scan leaves the context alone. -/
theorem resolveErrorLoop_context (err : Value) (r : Run) (n : Nat) :
    (resolveErrorLoop err r n).context = r.context := by
  induction n with
  | zero => rfl
  | succ i ih =>
    rw [resolveErrorLoop]
    split
    · exact ih
    · split
      · rfl
      · split
        · exact ih
        · rfl

/-- Error recovery for an `Error` leaves an error recorded. -/
theorem resolveError_recorded (err : Value) (r : Run) (herr : instanceofError err = true) :
    typeOf (resolveError err r).context.error = "object" := by
  unfold resolveError
  split
  · next h => exact h
  · rw [resolveErrorLoop_context]
    cases err <;> simp [instanceofError] at herr
    rfl

/-- Error recovery on a run with a recorded error throws the new error and
changes nothing else. -/
theorem resolveError_of_recorded (err : Value) (r : Run)
    (h : typeOf r.context.error = "object") : resolveError err r = raise err r := by
  simp [resolveError, h]

/-- An answer leaves a recorded error as it is. -/
theorem answer_error_of_recorded (x : Value) (r : Run)
    (h : typeOf r.context.error = "object") :
    (answer x r).context.error = r.context.error := by
  unfold answer
  split
  · rw [resolveError_of_recorded x r h]; rfl
  · rfl

/-- The step of an object leaves a recorded error as it is. -/
theorem resolveObjectOrArray_error_of_recorded (v : Value) (r : Run)
    (h : typeOf r.context.error = "object") :
    (resolveObjectOrArray v r).context.error = r.context.error := by
  have h1 : (contextArg r.context).2.error = r.context.error := contextArg_error _
  unfold resolveObjectOrArray
  simp only
  split
  · rw [answer_error_of_recorded _ _ (by rw [h1]; exact h)]; exact h1
  · split
    · exact h1
    · split
      · exact h1
      · split
        · exact h1
        · split
          · exact h1
          · rw [answer_error_of_recorded _ _ (by
              show typeOf (contextArg r.context).2.error = "object"
              rw [h1]; exact h)]
            exact h1

/-- Every deferred step leaves a recorded error as it is. -/
theorem resolveNextTick_error_of_recorded (v : Value) (r : Run)
    (h : typeOf r.context.error = "object") :
    (resolveNextTick v r).context.error = r.context.error := by
  cases v with
  | undefined => rfl
  | bool b => rfl
  | null => exact resolveObjectOrArray_error_of_recorded _ _ h
  | num n => exact answer_error_of_recorded _ _ h
  | str s => exact answer_error_of_recorded _ _ h
  | obj props => exact resolveObjectOrArray_error_of_recorded _ _ h
  | arr elems => exact resolveObjectOrArray_error_of_recorded _ _ h
  | error message => exact resolveObjectOrArray_error_of_recorded _ _ h
  | fn f =>
    cases f with
    | complete a b => rfl
    | throws x => exact answer_error_of_recorded _ _ h
    | returns x => rfl

/-- A recorded error stays recorded for the rest of the run. -/
theorem ticks_error_of_recorded (n : Nat) (r : Run)
    (h : typeOf r.context.error = "object") :
    (ticks n r).context.error = r.context.error := by
  induction n generalizing r with
  | zero => rfl
  | succ n ih =>
    have hstep : (tick r).context.error = r.context.error := by
      unfold tick
      split
      · rfl
      · split
        · rfl
        · exact resolveNextTick_error_of_recorded _ _ h
    show (ticks n (tick r)).context.error = r.context.error
    rw [ih (tick r) (by rw [hstep]; exact h), hstep]

/-- The error for which a step enters recovery is an `Error`. -/
theorem recoveryEntry_instanceofError (r : Run) (err : Value) (entry : Run)
    (h : RecoveryEntry r err entry) : instanceofError err = true := by
  cases h with
  | thrown x rest ht hp hx => exact hx
  | errorTarget message rest ht hp => rfl
  | notFound c s path child index rest ht hp hc hpath hs hchild hvoid hindex hivoid => rfl

/-- C12: (1) once a step of a run has entered error recovery, the run has a
recorded error at every later turn, whatever the handler has produced since.
(2) When a step of a run that has a recorded error enters error recovery again,
for a function that throws an `Error`, an `Error` reported or reached as a
target, or a lookup that finds neither the segment nor a fallback, the step
throws that error out of the engine and does nothing else: nothing is emitted
(the log is and stays empty), no step is scheduled, and no later turn changes
anything. -/
theorem resolveError_second_failure (t context : Value) (r0 : Run) (n : Nat)
    (err : Value) (entry : Run)
    (hstart : resolve t context = .ok r0)
    (hentry : RecoveryEntry (ticks n r0) err entry)
    (hrecorded : typeOf (ticks n r0).context.error = "object") :
    (∀ (k n' : Nat) (err' : Value) (entry' : Run), k < n' →
      RecoveryEntry (ticks k r0) err' entry' →
      typeOf (ticks n' r0).context.error = "object") ∧
    ticks (n + 1) r0 = raise err entry ∧
    (ticks (n + 1) r0).thrown = some err ∧
    (ticks (n + 1) r0).emitted = [] ∧
    (ticks (n + 1) r0).pending = [] ∧
    (∀ m, ticks (n + 1 + m) r0 = ticks (n + 1) r0) := by
  have hq := quiet_of_resolve t context r0 hstart n
  obtain ⟨hp, hem, hth, herr, -, -⟩ := recoveryEntry_quiet _ err entry hq hentry
  have hstep : ticks (n + 1) r0 = raise err entry := by
    rw [ticks_add]
    show tick (ticks n r0) = raise err entry
    rw [tick_of_recoveryEntry _ err entry hentry,
      resolveError_of_recorded err entry (by rw [herr]; exact hrecorded)]
  have hfinal : (ticks (n + 1) r0).pending = [] := by rw [hstep]; exact hp
  refine ⟨?_, hstep, by rw [hstep]; rfl, by rw [hstep]; exact hem, hfinal, fun m => ?_⟩
  · intro k n' err' entry' hk hentry'
    obtain ⟨d, rfl⟩ := Nat.exists_eq_add_of_lt hk
    have h1 : ticks (k + 1) r0 = resolveError err' entry' := by
      rw [ticks_add]
      exact tick_of_recoveryEntry _ err' entry' hentry'
    have h2 : typeOf (ticks (k + 1) r0).context.error = "object" := by
      rw [h1]
      exact resolveError_recorded err' entry' (recoveryEntry_instanceofError _ _ _ hentry')
    have h3 : ticks (k + d + 1) r0 = ticks d (ticks (k + 1) r0) := by
      rw [← ticks_add]; congr 1; omega
    rw [h3, ticks_error_of_recorded d _ h2]
    exact h2
  · rw [ticks_add, ticks_of_pending_nil _ _ hfinal]

/-- C12 at a concrete input: in `{a: {b: <throws X>, $error: {}}}` with the
path `['a', 'b', 'c']` the handler `{}` has no `'c'`: its lookup fails after
the error `X` has been recorded. -/
theorem resolveError_second_failure_witness :
    (ticks 4 (startRun (.obj [("a", .obj [("b", .fn (.throws (.error "X"))),
        ("$error", .obj [])])]) [.str "a", .str "b", .str "c"] .undefined)).thrown
      = some NotFoundError ∧
    (ticks 4 (startRun (.obj [("a", .obj [("b", .fn (.throws (.error "X"))),
        ("$error", .obj [])])]) [.str "a", .str "b", .str "c"] .undefined)).emitted = [] :=
  ⟨(resolveError_second_failure
      (.obj [("a", .obj [("b", .fn (.throws (.error "X"))), ("$error", .obj [])])])
      (.obj [("path", .arr [.str "a", .str "b", .str "c"])])
      (startRun (.obj [("a", .obj [("b", .fn (.throws (.error "X"))),
        ("$error", .obj [])])]) [.str "a", .str "b", .str "c"] .undefined)
      3 NotFoundError _ rfl
      (RecoveryEntry.notFound (.obj []) (.str "c") [] .undefined .undefined []
        rfl rfl rfl rfl rfl rfl rfl rfl rfl)
      rfl).2.2.1,
   (resolveError_second_failure
      (.obj [("a", .obj [("b", .fn (.throws (.error "X"))), ("$error", .obj [])])])
      (.obj [("path", .arr [.str "a", .str "b", .str "c"])])
      (startRun (.obj [("a", .obj [("b", .fn (.throws (.error "X"))),
        ("$error", .obj [])])]) [.str "a", .str "b", .str "c"] .undefined)
      3 NotFoundError _ rfl
      (RecoveryEntry.notFound (.obj []) (.str "c") [] .undefined .undefined []
        rfl rfl rfl rfl rfl rfl rfl rfl rfl)
      rfl).2.2.2.1⟩


/-! ## The backtrace chain -/

/-- Error recovery leaves the chain alone. -/
theorem resolveError_chain (err : Value) (r : Run) :
    (resolveError err r).context.chain = r.context.chain := by
  unfold resolveError
  split
  · rfl
  · rw [resolveErrorLoop_context]

/-- An answer leaves the chain alone. -/
theorem answer_chain (x : Value) (r : Run) :
    (answer x r).context.chain = r.context.chain := by
  unfold answer
  split
  · exact resolveError_chain x r
  · rfl

/-- The step of an object leaves the chain alone. -/
theorem resolveObjectOrArray_chain (v : Value) (r : Run) :
    (resolveObjectOrArray v r).context.chain = r.context.chain := by
  have h1 : (contextArg r.context).2.chain = r.context.chain := contextArg_chain _
  unfold resolveObjectOrArray
  simp only
  split
  · rw [answer_chain]; exact h1
  · split
    · exact h1
    · split
      · exact h1
      · split
        · exact h1
        · split
          · exact h1
          · rw [answer_chain]; exact h1

/-- Every deferred step appends its target to the chain and leaves the other
entries as they are. -/
theorem resolveNextTick_chain (v : Value) (r : Run) :
    (resolveNextTick v r).context.chain = r.context.chain ++ [v] := by
  cases v with
  | undefined => rfl
  | bool b => rfl
  | null => exact resolveObjectOrArray_chain _ _
  | num n => exact answer_chain _ _
  | str s => exact answer_chain _ _
  | obj props => exact resolveObjectOrArray_chain _ _
  | arr elems => exact resolveObjectOrArray_chain _ _
  | error message => exact resolveObjectOrArray_chain _ _
  | fn f =>
    cases f with
    | complete a b => rfl
    | throws x => exact answer_chain _ _
    | returns x => rfl

/-- Every deferred step leaves the queue as it is or adds one target at its
end. -/
theorem resolveNextTick_pending (v : Value) (r : Run) :
    ∃ new : List Value, (resolveNextTick v r).pending = r.pending ++ new ∧ new.length ≤ 1 := by
  rcases resolveNextTick_shape v r with h | ⟨⟨w, h, -⟩, -⟩
  · exact ⟨[], by simpa using h, by simp⟩
  · exact ⟨[w], h, by simp⟩

/-- The turn after `n` turns. -/
theorem ticks_succ (n : Nat) (r : Run) : ticks (n + 1) r = tick (ticks n r) := by
  rw [ticks_add]; rfl

/-- One turn: the chain and the queue together grow by the targets the turn
has scheduled, at the end, and the chain grows by the target it has run. -/
theorem tick_chain_pending (r : Run) :
    (tick r).context.chain.length + (tick r).pending.length
      = r.context.chain.length + r.pending.length + scheduledBy r ∧
    (∃ new, (tick r).context.chain ++ (tick r).pending
      = (r.context.chain ++ r.pending) ++ new) ∧
    (∃ done, (tick r).context.chain = r.context.chain ++ done ∧
      (∀ v rest, r.thrown = none → r.pending = v :: rest → done = [v])) := by
  obtain ⟨context, pending, emitted, thrown⟩ := r
  cases thrown with
  | some x =>
    refine ⟨rfl, ⟨[], by simp [tick]⟩, ⟨[], by simp [tick], ?_⟩⟩
    intro v rest h
    simp at h
  | none =>
    cases pending with
    | nil =>
      refine ⟨rfl, ⟨[], by simp [tick]⟩, ⟨[], by simp [tick], ?_⟩⟩
      intro v rest _ h
      simp at h
    | cons v rest =>
      have ht : tick ⟨context, v :: rest, emitted, none⟩
          = resolveNextTick v ⟨context, rest, emitted, none⟩ := rfl
      obtain ⟨new, hnew, -⟩ := resolveNextTick_pending v ⟨context, rest, emitted, none⟩
      have hchain := resolveNextTick_chain v ⟨context, rest, emitted, none⟩
      simp only at hnew hchain
      refine ⟨?_, ⟨new, ?_⟩, ⟨[v], ?_, ?_⟩⟩
      · simp only [scheduledBy, ht, hnew, hchain, List.length_append, List.length_cons,
          List.length_nil]
        omega
      · rw [ht, hnew, hchain]
        simp
      · rw [ht, hchain]
      · intro v' rest' _ h
        simp only [List.cons.injEq] at h
        rw [h.1]

/-- After any number of turns the chain and the queue together have as many
targets as the scheduler has been called for. -/
theorem ticks_chain_pending (n : Nat) (r : Run) :
    (ticks n r).context.chain.length + (ticks n r).pending.length
      = r.context.chain.length + scheduledSoFar n r := by
  induction n with
  | zero => rfl
  | succ n ih =>
    rw [ticks_succ, (tick_chain_pending (ticks n r)).1, ih]
    simp only [scheduledSoFar]
    omega

/-- C19 (as stated, refuted): right after `resolve` has returned, the scheduler
has been called once and the chain is empty; the entry is appended only when the
deferred step runs.  After the first turn of the sample run two steps have been
scheduled and the chain has one entry. -/
theorem chain_length_behind_scheduled :
    scheduledSoFar 0 (startRun sample [.str "foo", .str "bar"] .undefined) = 1 ∧
    (ticks 0 (startRun sample [.str "foo", .str "bar"] .undefined)).context.chain.length
      = 0 ∧
    scheduledSoFar 1 (startRun sample [.str "foo", .str "bar"] .undefined) = 2 ∧
    (ticks 1 (startRun sample [.str "foo", .str "bar"] .undefined)).context.chain.length
      = 1 :=
  ⟨rfl, rfl, rfl, rfl⟩

/-- C19 (amended): at every point of a run started by `resolve`, the length of
the chain is the number of steps scheduled so far (the call of the scheduler by
`resolve` included) less the number of steps still deferred; the two are equal
whenever no step is deferred.  A turn that runs a step appends the target of
that step, the oldest deferred one, to the chain and changes no other entry; the
scheduled targets, the chain followed by the queue, only grow at the end, so the
entries appear in scheduling order; and the length of the chain never
decreases. -/
theorem chain_length_scheduled (t context : Value) (r0 : Run)
    (hstart : resolve t context = .ok r0) (n : Nat) :
    (ticks n r0).context.chain.length + (ticks n r0).pending.length
      = scheduledSoFar n r0 ∧
    ((ticks n r0).pending = [] →
      (ticks n r0).context.chain.length = scheduledSoFar n r0) ∧
    scheduledSoFar 0 r0 = 1 ∧
    (∀ v rest, (ticks n r0).thrown = none → (ticks n r0).pending = v :: rest →
      (ticks (n + 1) r0).context.chain = (ticks n r0).context.chain ++ [v]) ∧
    (∃ new, (ticks (n + 1) r0).context.chain ++ (ticks (n + 1) r0).pending
      = ((ticks n r0).context.chain ++ (ticks n r0).pending) ++ new) ∧
    (∃ done, (ticks (n + 1) r0).context.chain = (ticks n r0).context.chain ++ done) ∧
    (ticks n r0).context.chain.length ≤ (ticks (n + 1) r0).context.chain.length := by
  obtain ⟨path, error, rfl⟩ := resolve_ok t context r0 hstart
  have h1 := ticks_chain_pending n (startRun t path error)
  have h0 : (startRun t path error).context.chain.length = 0 := rfl
  rw [h0, Nat.zero_add] at h1
  obtain ⟨-, hnew, done, hdone, hv⟩ := tick_chain_pending (ticks n (startRun t path error))
  refine ⟨h1, ?_, rfl, ?_, ?_, ?_, ?_⟩
  · intro hp
    rw [← h1, hp]
    rfl
  · intro v rest ht hp
    rw [ticks_succ, hdone, hv v rest ht hp]
  · rw [ticks_succ]; exact hnew
  · rw [ticks_succ]; exact ⟨done, hdone⟩
  · rw [ticks_succ, hdone]
    simp

/-- C19 (amended) at a concrete input: the sample run after two turns, with
three steps scheduled, two entries on the chain and one step deferred. -/
theorem chain_length_scheduled_witness :
    (ticks 2 (startRun sample [.str "foo", .str "bar"] .undefined)).context.chain.length
        + (ticks 2 (startRun sample [.str "foo", .str "bar"] .undefined)).pending.length
      = scheduledSoFar 2 (startRun sample [.str "foo", .str "bar"] .undefined) :=
  (chain_length_scheduled sample (.obj [("path", .arr [.str "foo", .str "bar"])])
    (startRun sample [.str "foo", .str "bar"] .undefined) rfl 2).1


/-! ## Components and heights -/

/-- A property value of an object is lower than the object. -/
theorem height_lookup (props : List (String × Value)) (key : String) (w : Value)
    (h : props.lookup key = some w) : height w + 1 ≤ heightProps props := by
  induction props with
  | nil => simp at h
  | cons kv rest ih =>
    obtain ⟨k, v⟩ := kv
    rw [List.lookup_cons] at h
    simp only [heightProps]
    cases hk : (key == k) with
    | true => simp [hk] at h; subst h; exact Nat.le_max_left _ _
    | false => simp [hk] at h; exact Nat.le_trans (ih h) (Nat.le_max_right _ _)

/-- An element of an array is lower than the array. -/
theorem height_getD (elems : List Value) (i : Nat) (w : Value)
    (h : elems.getD i .undefined = w) (hw : testVoidVariable w = false) :
    height w + 1 ≤ heightList elems := by
  induction elems generalizing i with
  | nil => simp at h; subst h; simp [testVoidVariable] at hw
  | cons v rest ih =>
    simp only [heightList]
    cases i with
    | zero => simp at h; subst h; exact Nat.le_max_left _ _
    | succ i =>
      simp only [List.getD_cons_succ] at h
      exact Nat.le_trans (ih i h) (Nat.le_max_right _ _)

/-- The bound of a value is at most two more than its height, and at least one. -/
theorem stepsBound_le (v : Value) : stepsBound v ≤ height v + 2 ∧ 1 ≤ stepsBound v := by
  unfold stepsBound
  split <;> omega

/-- The bound of a value that is no leaf. -/
theorem stepsBound_of_not_leaf (v : Value) (h : isLeaf v = false) :
    stepsBound v = height v + 2 := by
  simp [stepsBound, h]

/-- A component is not higher than its value, and its bound is smaller. -/
theorem component_height (w v : Value) (h : Component w v) :
    height w ≤ height v ∧ stepsBound w < stepsBound v ∧ isLeaf v = false := by
  cases h with
  | prop v key w hget hkey hw =>
    cases v with
    | obj props =>
      rw [getProp_obj_own props key hkey] at hget
      simp only [Except.ok.injEq] at hget
      cases hl : props.lookup key with
      | none => rw [hl] at hget; simp at hget; subst hget; simp [testVoidVariable] at hw
      | some u =>
        rw [hl] at hget
        simp at hget
        subst hget
        have := height_lookup props key u hl
        have hb := (stepsBound_le u).1
        simp only [height]
        rw [stepsBound_of_not_leaf (.obj props) rfl]
        simp only [height]
        exact ⟨by omega, by omega, rfl⟩
    | arr elems =>
      rw [getProp_arr_own elems key hkey] at hget
      simp only [Except.ok.injEq] at hget
      rw [stepsBound_of_not_leaf (.arr elems) rfl]
      split at hget
      · subst hget
        exact ⟨by simp [height], by simp [stepsBound, isLeaf], rfl⟩
      · unfold arrayIndex at hget
        split at hget
        · have := height_getD elems _ w hget hw
          have hb := (stepsBound_le w).1
          simp only [height]
          exact ⟨by omega, by omega, rfl⟩
        · subst hget; simp [testVoidVariable] at hw
    | undefined => simp [getProp] at hget
    | null => simp [getProp] at hget
    | bool b => simp [getProp] at hget; subst hget; simp [testVoidVariable] at hw
    | num n => simp [getProp] at hget; subst hget; simp [testVoidVariable] at hw
    | str s => simp [getProp] at hget; subst hget; simp [testVoidVariable] at hw
    | error m => simp [getProp] at hget; subst hget; simp [testVoidVariable] at hw
    | fn f => simp [getProp] at hget; subst hget; simp [testVoidVariable] at hw
  | target w alt =>
    have hb := (stepsBound_le w).1
    have hh : height w + 1 ≤ height (.fn (.complete w alt)) := by
      simp only [height]; exact Nat.le_max_left _ _
    rw [stepsBound_of_not_leaf (.fn (.complete w alt)) rfl]
    exact ⟨by omega, by omega, rfl⟩
  | alt w =>
    have hb := (stepsBound_le w).1
    have hh : height w + 1 ≤ height (.fn (.complete .null w)) := by
      simp only [height]; exact Nat.le_max_right _ _
    rw [stepsBound_of_not_leaf (.fn (.complete .null w)) rfl]
    exact ⟨by omega, by omega, rfl⟩

/-- A handler is a property of the entry that exposes it, and lower than it. -/
theorem exposedHandler_height (e w : Value) (h : exposedHandler e = some w) :
    Component w e ∧ height w + 1 ≤ height e := by
  unfold exposedHandler at h
  split at h
  · next handler hget =>
    split at h
    · simp at h
    · next hv =>
      simp only [Option.some.injEq] at h
      subst h
      have hv' : testVoidVariable handler = false := by simpa using hv
      refine ⟨Component.prop e _ handler hget inheritedName_error hv', ?_⟩
      cases e with
      | obj props =>
        rw [getProp_obj_own props _ inheritedName_error] at hget
        simp only [Except.ok.injEq] at hget
        cases hl : props.lookup ErrorPropertyName with
        | none => rw [hl] at hget; simp at hget; subst hget; simp [testVoidVariable] at hv'
        | some u =>
          rw [hl] at hget
          simp at hget
          subst hget
          simpa [height] using height_lookup props _ u hl
      | arr elems =>
        have : getProp (.arr elems) ErrorPropertyName = .ok .undefined := rfl
        rw [this] at hget
        simp at hget
        subst hget
        simp [testVoidVariable] at hv'
      | undefined => simp [getProp] at hget
      | null => simp [getProp] at hget
      | bool b => simp [getProp] at hget; subst hget; simp [testVoidVariable] at hv'
      | num n => simp [getProp] at hget; subst hget; simp [testVoidVariable] at hv'
      | str s => simp [getProp] at hget; subst hget; simp [testVoidVariable] at hv'
      | error m => simp [getProp] at hget; subst hget; simp [testVoidVariable] at hv'
      | fn f => simp [getProp] at hget; subst hget; simp [testVoidVariable] at hv'
  · simp at h

/-- The functions in a property value of an object answer if those of the
object do. -/
theorem answersOnce_lookup (props : List (String × Value)) (key : String) (w : Value)
    (h : props.lookup key = some w) (hp : answersOnceProps props = true) :
    answersOnce w = true := by
  induction props with
  | nil => simp at h
  | cons kv rest ih =>
    obtain ⟨k, v⟩ := kv
    rw [List.lookup_cons] at h
    simp only [answersOnceProps, Bool.and_eq_true] at hp
    cases hk : (key == k) with
    | true => simp [hk] at h; subst h; exact hp.1
    | false => simp [hk] at h; exact ih h hp.2

/-- The functions in an element of an array answer if those of the array do. -/
theorem answersOnce_getD (elems : List Value) (i : Nat)
    (hp : answersOnceList elems = true) : answersOnce (elems.getD i .undefined) = true := by
  induction elems generalizing i with
  | nil => simp [answersOnce]
  | cons v rest ih =>
    simp only [answersOnceList, Bool.and_eq_true] at hp
    cases i with
    | zero => simpa using hp.1
    | succ i => simpa using ih i hp.2

/-- The functions in a component answer if those of the value do. -/
theorem component_answersOnce (w v : Value) (h : Component w v)
    (hv : answersOnce v = true) : answersOnce w = true := by
  cases h with
  | prop v key w hget hkey hw =>
    cases v with
    | obj props =>
      rw [getProp_obj_own props key hkey] at hget
      simp only [Except.ok.injEq] at hget
      cases hl : props.lookup key with
      | none => rw [hl] at hget; simp at hget; subst hget; rfl
      | some u =>
        rw [hl] at hget
        simp at hget
        subst hget
        exact answersOnce_lookup props key u hl (by simpa [answersOnce] using hv)
    | arr elems =>
      rw [getProp_arr_own elems key hkey] at hget
      simp only [Except.ok.injEq] at hget
      split at hget
      · subst hget; rfl
      · unfold arrayIndex at hget
        split at hget
        · subst hget
          exact answersOnce_getD elems _ (by simpa [answersOnce] using hv)
        · subst hget; rfl
    | undefined => simp [getProp] at hget
    | null => simp [getProp] at hget
    | bool b => simp [getProp] at hget; subst hget; rfl
    | num n => simp [getProp] at hget; subst hget; rfl
    | str s => simp [getProp] at hget; subst hget; rfl
    | error m => simp [getProp] at hget; subst hget; rfl
    | fn f => simp [getProp] at hget; subst hget; rfl
  | target w alt =>
    simp only [answersOnce, Bool.and_eq_true] at hv
    exact hv.1
  | alt w =>
    simp only [answersOnce, Bool.and_eq_true] at hv
    exact hv.2

mutual
/-- In a tree without functions every function answers. -/
theorem answersOnce_of_functionFree : ∀ v : Value, functionFree v = true → answersOnce v = true
  | .obj props, h => by
    simp only [functionFree] at h
    simp only [answersOnce]
    exact answersOnceProps_of_functionFree props h
  | .arr elems, h => by
    simp only [functionFree] at h
    simp only [answersOnce]
    exact answersOnceList_of_functionFree elems h
  | .fn f, h => by simp [functionFree] at h
  | .undefined, _ => rfl
  | .null, _ => rfl
  | .bool _, _ => rfl
  | .num _, _ => rfl
  | .str _, _ => rfl
  | .error _, _ => rfl
/-- The same for the properties of an object. -/
theorem answersOnceProps_of_functionFree :
    ∀ props : List (String × Value), functionFreeProps props = true →
      answersOnceProps props = true
  | [], _ => rfl
  | (_, v) :: rest, h => by
    simp only [functionFreeProps, Bool.and_eq_true] at h
    simp only [answersOnceProps, Bool.and_eq_true]
    exact ⟨answersOnce_of_functionFree v h.1, answersOnceProps_of_functionFree rest h.2⟩
/-- The same for the elements of an array. -/
theorem answersOnceList_of_functionFree :
    ∀ elems : List Value, functionFreeList elems = true → answersOnceList elems = true
  | [], _ => rfl
  | v :: rest, h => by
    simp only [functionFreeList, Bool.and_eq_true] at h
    simp only [answersOnceList, Bool.and_eq_true]
    exact ⟨answersOnce_of_functionFree v h.1, answersOnceList_of_functionFree rest h.2⟩
end


/-! ## The kinds of a step -/

/-- The exception of a property read is a `TypeError`. -/
theorem getProp_error (v : Value) (key : String) (e : Value)
    (h : getProp v key = .error e) : e = typeError := by
  cases v <;> simp [getProp] at h <;> exact h.symm

/-- An `Error` has the type `'object'`. -/
theorem typeOf_of_instanceofError (x : Value) (h : instanceofError x = true) :
    typeOf x = "object" := by
  cases x <;> simp [instanceofError] at h
  rfl

/-- The scan schedules the handler of an entry, or emits the failure, or
throws a `TypeError`. -/
theorem resolveErrorLoop_kind (err : Value) (r : Run) (n : Nat)
    (hn : n ≤ r.context.chain.length) :
    (∃ w, resolveErrorLoop err r n = resolveNextTickGenerator w r ∧
      ∃ e ∈ r.context.chain, exposedHandler e = some w) ∨
    resolveErrorLoop err r n = emit "error" err r ∨
    resolveErrorLoop err r n = raise typeError r := by
  induction n with
  | zero => right; left; rfl
  | succ i ih =>
    have hi : i < r.context.chain.length := hn
    have hget : r.context.chain.getD i .undefined = r.context.chain[i] := by
      simp [List.getD, List.getElem?_eq_getElem hi]
    have hmem : r.context.chain.getD i .undefined ∈ r.context.chain := by
      rw [hget]; exact List.getElem_mem hi
    cases hex : exposedHandler (r.context.chain.getD i .undefined) with
    | some h =>
      left
      exact ⟨h, resolveErrorLoop_take err r i h hex, _, hmem, hex⟩
    | none =>
      by_cases hnull : r.context.chain.getD i .undefined = .null
      · right; right
        rw [resolveErrorLoop, hnull]
        rfl
      · rw [resolveErrorLoop_skip err r i hnull hex]
        exact ih (Nat.le_of_lt hi)

/-- The kind of a step looks only at the queue, the log, the thrown value, the
recorded error and the chain of the run before it. -/
theorem stepKind_of_eq (v : Value) (path : List Value) (r1 r r' : Run)
    (h : StepKind v path r1 r')
    (hp : r1.pending = r.pending) (he : r1.emitted = r.emitted) (ht : r1.thrown = r.thrown)
    (herr : r1.context.error = r.context.error)
    (hc : r1.context.chain = r.context.chain) : StepKind v path r r' := by
  unfold StepKind at h ⊢
  rw [hp, he, ht, herr, hc] at h
  exact h

/-- The kind of an answer. -/
theorem answer_kind (v x : Value) (path : List Value) (r : Run)
    (hv : instanceofError x = true → isLeaf v = false) :
    StepKind v path r (answer x r) := by
  unfold answer
  split
  · next hx =>
    by_cases hrec : typeOf r.context.error = "object"
    · rw [resolveError_of_recorded x r hrec]
      exact Or.inr (Or.inr (Or.inl ⟨x, rfl, rfl, rfl, Or.inr hrec⟩))
    · rw [resolveError_fresh x r hrec]
      rcases resolveErrorLoop_kind x { r with context := { r.context with error := x } }
          r.context.chain.length (Nat.le_refl _) with ⟨w, hw, e, he, hex⟩ | h | h
      · rw [hw]
        exact Or.inl ⟨w, rfl, rfl, rfl, hv hx,
          Or.inr (Or.inl ⟨hrec, typeOf_of_instanceofError x hx, e, he, hex⟩)⟩
      · rw [h]
        exact Or.inr (Or.inl ⟨⟨"error", x⟩, rfl, rfl, rfl, Or.inr rfl⟩)
      · rw [h]
        exact Or.inr (Or.inr (Or.inl ⟨typeError, rfl, rfl, rfl, Or.inl rfl⟩))
  · exact Or.inr (Or.inl ⟨⟨"end", x⟩, rfl, rfl, rfl, Or.inl rfl⟩)

/-- A segment that is present was the first one of the path. -/
theorem contextArg_present (c : Context) (h : testVoidSegment (contextArg c).1 = false) :
    ∃ rest, c.path = (contextArg c).1 :: rest := by
  obtain ⟨path, chain, error⟩ := c
  cases path with
  | nil => simp [contextArg, testVoidSegment, testVoidVariable] at h
  | cons s rest => exact ⟨rest, rfl⟩

/-- The kind of the step of an object, an array, an `Error` or `null`. -/
theorem resolveObjectOrArray_kind (v : Value) (r : Run) (hv : isLeaf v = false) :
    StepKind v r.context.path r (resolveObjectOrArray v r) := by
  have hchain : (contextArg r.context).2.chain = r.context.chain := contextArg_chain _
  have herror : (contextArg r.context).2.error = r.context.error := contextArg_error _
  unfold resolveObjectOrArray
  simp only
  split
  · exact stepKind_of_eq v _ _ r _ (answer_kind v v _ _ (fun _ => hv)) rfl rfl rfl herror hchain
  · next hcond =>
    have hseg : testVoidSegment (contextArg r.context).1 = false := by
      cases hs : testVoidSegment (contextArg r.context).1 with
      | false => rfl
      | true => exact absurd (by rw [hs]; simp) hcond
    split
    · next e hget =>
      exact Or.inr (Or.inr (Or.inl ⟨e, rfl, rfl, rfl, Or.inl (getProp_error _ _ _ hget)⟩))
    · next child hget =>
      split
      · next hpresent =>
        cases hkey : inheritedName (toPropertyKey (contextArg r.context).1) with
        | false =>
          exact Or.inl ⟨child, rfl, rfl, rfl, hv,
            Or.inl ⟨Component.prop v _ child hget hkey (by simpa using hpresent), herror⟩⟩
        | true =>
          obtain ⟨rest, hrest⟩ := contextArg_present r.context hseg
          exact Or.inl ⟨child, rfl, rfl, rfl, hv,
            Or.inr (Or.inr ⟨_, rest, hrest, hkey, hget⟩)⟩
      · split
        · next e hget' =>
          exact Or.inr (Or.inr (Or.inl
            ⟨e, rfl, rfl, rfl, Or.inl (getProp_error _ _ _ hget')⟩))
        · next index hget' =>
          split
          · next hpresent =>
            exact Or.inl ⟨index, rfl, rfl, rfl, hv,
              Or.inl ⟨Component.prop v _ index hget' inheritedName_index
                (by simpa using hpresent), herror⟩⟩
          · exact stepKind_of_eq v _ _ r _ (answer_kind v NotFoundError _ _ (fun _ => hv))
              rfl rfl rfl herror hchain

/-- The kind of the step of a function. -/
theorem resolveFunction_kind (f : Fn) (path : List Value) (r : Run) :
    StepKind (.fn f) path r (resolveFunction (.fn f) r) := by
  cases f with
  | complete a b =>
    have key : ∀ w, Component w (.fn (.complete a b)) →
        StepKind (.fn (.complete a b)) path r (resolveNextTickGenerator w r) :=
      fun w hw => Or.inl ⟨w, rfl, rfl, rfl, rfl, Or.inl ⟨hw, rfl⟩⟩
    cases a with
    | null => exact key b (Component.alt b)
    | undefined => exact key _ (Component.target _ b)
    | bool x => exact key _ (Component.target _ b)
    | num x => exact key _ (Component.target _ b)
    | str x => exact key _ (Component.target _ b)
    | obj x => exact key _ (Component.target _ b)
    | arr x => exact key _ (Component.target _ b)
    | error x => exact key _ (Component.target _ b)
    | fn x => exact key _ (Component.target _ b)
  | throws x => exact answer_kind _ x path r (fun _ => rfl)
  | returns u => exact Or.inr (Or.inr (Or.inr ⟨u, rfl, rfl, rfl, rfl⟩))

/-- The kind of every deferred step, seen from the run with the target already
on the chain. -/
theorem resolveNextTick_kind (v : Value) (r : Run) :
    StepKind v r.context.path
      { r with context := { r.context with chain := r.context.chain ++ [v] } }
      (resolveNextTick v r) := by
  cases v with
  | undefined => exact Or.inr (Or.inr (Or.inl ⟨typeError, rfl, rfl, rfl, Or.inl rfl⟩))
  | bool b => exact Or.inr (Or.inr (Or.inl ⟨typeError, rfl, rfl, rfl, Or.inl rfl⟩))
  | null => exact resolveObjectOrArray_kind _ _ rfl
  | num n => exact answer_kind _ _ _ _ (fun h => by simp [instanceofError] at h)
  | str s => exact answer_kind _ _ _ _ (fun h => by simp [instanceofError] at h)
  | obj props => exact resolveObjectOrArray_kind _ _ rfl
  | arr elems => exact resolveObjectOrArray_kind _ _ rfl
  | error message => exact resolveObjectOrArray_kind _ _ rfl
  | fn f => exact resolveFunction_kind f _ _

/-! ## The path of a run -/

/-- Error recovery leaves the path alone. -/
theorem resolveError_path (err : Value) (r : Run) :
    (resolveError err r).context.path = r.context.path := by
  unfold resolveError
  split
  · rfl
  · rw [resolveErrorLoop_context]

/-- An answer leaves the path alone. -/
theorem answer_path (x : Value) (r : Run) :
    (answer x r).context.path = r.context.path := by
  unfold answer
  split
  · exact resolveError_path x r
  · rfl

/-- The step of an object takes the first segment from the path, or leaves the
path as it was. -/
theorem resolveObjectOrArray_path (v : Value) (r : Run) :
    ∀ s ∈ (resolveObjectOrArray v r).context.path, s ∈ r.context.path := by
  obtain ⟨⟨path, chain, error⟩, pending, emitted, thrown⟩ := r
  cases path with
  | nil =>
    have h : resolveObjectOrArray v ⟨⟨[], chain, error⟩, pending, emitted, thrown⟩
        = answer v ⟨⟨[], chain, error⟩, pending, emitted, thrown⟩ := by
      simp [resolveObjectOrArray, contextArg, testVoidSegment, testVoidVariable]
    rw [h, answer_path]
    exact fun s hs => hs
  | cons seg rest =>
    have htail : ∀ s ∈ rest, s ∈ seg :: rest := fun s hs => List.mem_cons_of_mem _ hs
    unfold resolveObjectOrArray
    simp only [contextArg]
    split
    · rw [answer_path]; exact htail
    · split
      · exact htail
      · split
        · exact htail
        · split
          · exact fun s hs => hs
          · split
            · exact fun s hs => hs
            · rw [answer_path]; exact fun s hs => hs

/-- The step of a function leaves the path alone. -/
theorem resolveFunction_path (v : Value) (r : Run) :
    (resolveFunction v r).context.path = r.context.path := by
  unfold resolveFunction
  split
  · rfl
  · exact answer_path _ _
  · rfl
  · exact answer_path _ _

/-- No deferred step adds a segment to the path. -/
theorem resolveNextTick_path (v : Value) (r : Run) :
    ∀ s ∈ (resolveNextTick v r).context.path, s ∈ r.context.path := by
  cases v with
  | undefined => exact fun s hs => hs
  | bool b => exact fun s hs => hs
  | null => exact resolveObjectOrArray_path _ _
  | num n =>
    show ∀ s ∈ (answer _ _).context.path, _
    rw [answer_path]; exact fun s hs => hs
  | str x =>
    show ∀ s ∈ (answer _ _).context.path, _
    rw [answer_path]; exact fun s hs => hs
  | obj props => exact resolveObjectOrArray_path _ _
  | arr elems => exact resolveObjectOrArray_path _ _
  | error message => exact resolveObjectOrArray_path _ _
  | fn f =>
    show ∀ s ∈ (resolveFunction _ _).context.path, _
    rw [resolveFunction_path]; exact fun s hs => hs

/-- No turn adds a segment to the path. -/
theorem tick_path (r : Run) : ∀ s ∈ (tick r).context.path, s ∈ r.context.path := by
  unfold tick
  split
  · exact fun s hs => hs
  · split
    · exact fun s hs => hs
    · exact resolveNextTick_path _ _

/-- A path within a path without inherited names has none. -/
theorem ownSegments_of_subset (p q : List Value) (h : ∀ s ∈ p, s ∈ q)
    (hq : ownSegments q = true) : ownSegments p = true := by
  simp only [ownSegments, List.all_eq_true] at hq ⊢
  exact fun s hs => hq s (h s hs)

/-- No turn brings an inherited name onto the path. -/
theorem ownSegments_tick (r : Run) (h : ownSegments r.context.path = true) :
    ownSegments (tick r).context.path = true :=
  ownSegments_of_subset _ _ (tick_path r) h

/-- No number of turns brings an inherited name onto the path. -/
theorem ownSegments_ticks (n : Nat) (r : Run) (h : ownSegments r.context.path = true) :
    ownSegments (ticks n r).context.path = true := by
  induction n generalizing r with
  | zero => exact h
  | succ n ih => exact ih (tick r) (ownSegments_tick r h)

/-! ## Termination and the final outcome -/

/-- A turn of a run with nothing deferred changes nothing. -/
theorem tick_of_pending_nil (r : Run) (hp : r.pending = []) : tick r = r := by
  unfold tick
  cases r.thrown <;> simp [hp]

/-- A run with a deferred step has a positive potential. -/
theorem potential_pos (budget : Nat) (r : Run) (hne : r.pending ≠ []) :
    1 ≤ potential budget r := by
  unfold potential
  split
  · next h => exact absurd h hne
  · next v rest h =>
    have := (stepsBound_le v).2
    omega

/-- A started run is within the height of its target. -/
theorem within_startRun (t : Value) (path : List Value) (error : Value)
    (hans : answersOnce t = true) (hown : ownSegments path = true) :
    Within (height t) (startRun t path error) := by
  refine ⟨?_, hown⟩
  intro e he
  simp only [startRun, resolveNextTickGenerator, List.nil_append, List.mem_singleton] at he
  subst he
  exact ⟨Nat.le_refl _, hans⟩

/-- The potential of a started run. -/
theorem potential_startRun (t : Value) (path : List Value) (error : Value) :
    potential (height t) (startRun t path error) ≤ 2 * (height t + 1) := by
  have h := (stepsBound_le t).1
  simp only [potential, startRun, resolveNextTickGenerator, List.nil_append]
  split <;> omega

/-- One turn that runs a step: the run stays within its bound, and either it
has reached its final outcome or its potential is smaller. -/
theorem tick_step (bound : Nat) (r : Run) (hq : Quiet r) (hw : Within bound r)
    (hne : r.pending ≠ []) :
    Within bound (tick r) ∧
    (((tick r).pending = [] ∧ Settled (tick r)) ∨
     ((tick r).pending ≠ [] ∧ potential bound (tick r) < potential bound r)) := by
  obtain ⟨v, hp⟩ : ∃ v, r.pending = [v] := by
    have hle := hq.pending_le
    cases hpd : r.pending with
    | nil => exact absurd hpd hne
    | cons v rest =>
      rw [hpd] at hle
      have : rest = [] := by simpa using hle
      exact ⟨v, by rw [this]⟩
  have ht : r.thrown = none := hq.thrown_none hne
  have hem : r.emitted = [] := hq.emitted_nil hne
  have htick : tick r = resolveNextTick v { r with pending := [] } := tick_cons r v [] ht hp
  have hchain : (tick r).context.chain = r.context.chain ++ [v] := by
    rw [htick]; exact resolveNextTick_chain v _
  have hpath : ownSegments (tick r).context.path = true := ownSegments_tick r hw.2
  have hall : ∀ e ∈ r.context.chain ++ [v], height e ≤ bound ∧ answersOnce e = true := by
    intro e he
    exact hw.1 e (by rw [hp]; exact he)
  have hv := hall v (by simp)
  have hk := resolveNextTick_kind v { r with pending := [] }
  rw [← htick] at hk
  rcases hk with ⟨w, h1, h2, h3, hleaf, hcase⟩ | ⟨ev, h1, h2, h3, hname⟩ |
    ⟨x, h1, h2, h3, hx⟩ | ⟨u, hu, -, -, -⟩
  · have hpw : (tick r).pending = [w] := by simpa using h1
    have hwfacts : height w ≤ bound ∧ answersOnce w = true ∧
        potential bound (tick r) < potential bound r := by
      rcases hcase with ⟨hcomp, herr⟩ | ⟨hfresh, hrec, e, he, hex⟩ | ⟨s, rest, hs, hinh, -⟩
      · obtain ⟨hh, hs, -⟩ := component_height w v hcomp
        refine ⟨Nat.le_trans hh hv.1, component_answersOnce w v hcomp hv.2, ?_⟩
        have herr' : (tick r).context.error = r.context.error := herr
        simp only [potential, hpw, hp, herr']
        omega
      · obtain ⟨hcomp, hh⟩ := exposedHandler_height e w hex
        have hebound := hall e he
        refine ⟨by omega, component_answersOnce w e hcomp hebound.2, ?_⟩
        have hfresh' : typeOf r.context.error ≠ "object" := hfresh
        have hb := (stepsBound_le w).1
        simp only [potential, hpw, hp, if_pos hrec, if_neg hfresh',
          stepsBound_of_not_leaf v hleaf]
        omega
      · exfalso
        have hown := hw.2
        have hs' : r.context.path = s :: rest := hs
        rw [hs'] at hown
        simp [ownSegments, hinh] at hown
    refine ⟨⟨?_, hpath⟩, Or.inr ⟨by rw [hpw]; simp, hwfacts.2.2⟩⟩
    intro e he
    rw [hchain, hpw] at he
    rcases List.mem_append.1 he with he | he
    · exact hall e he
    · rw [List.mem_singleton.1 he]; exact ⟨hwfacts.1, hwfacts.2.1⟩
  · have hpn : (tick r).pending = [] := h1
    refine ⟨⟨?_, hpath⟩, Or.inl ⟨hpn, Or.inl ⟨by rw [h3]; exact ht, ev, ?_, hname⟩⟩⟩
    · intro e he
      rw [hchain, hpn, List.append_nil] at he
      exact hall e he
    · rw [h2]
      show r.emitted ++ [ev] = [ev]
      rw [hem]; rfl
  · have hpn : (tick r).pending = [] := h1
    refine ⟨⟨?_, hpath⟩, Or.inl ⟨hpn, Or.inr ⟨x, h3, ?_, ?_⟩⟩⟩
    · intro e he
      rw [hchain, hpn, List.append_nil] at he
      exact hall e he
    · rw [h2]; exact hem
    · rcases hx with hx | hx
      · exact Or.inl hx
      · right
        have hrec : typeOf r.context.error = "object" := hx
        have hkeep := resolveNextTick_error_of_recorded v { r with pending := [] } hrec
        rw [htick, hkeep]
        exact hrec
  · rw [hu] at hv
    simp [answersOnce] at hv

/-- After `n` turns a run has nothing deferred, or its potential has fallen by
`n` at least. -/
theorem ticks_potential (bound n : Nat) (r : Run) (hq : Quiet r) (hw : Within bound r) :
    (ticks n r).pending = [] ∨ potential bound (ticks n r) + n ≤ potential bound r := by
  induction n generalizing r with
  | zero => right; exact Nat.le_refl _
  | succ n ih =>
    show (ticks n (tick r)).pending = [] ∨
      potential bound (ticks n (tick r)) + (n + 1) ≤ potential bound r
    by_cases hne : r.pending = []
    · left
      rw [tick_of_pending_nil r hne, ticks_of_pending_nil n r hne]
      exact hne
    · obtain ⟨hw', hcase⟩ := tick_step bound r hq hw hne
      rcases hcase with ⟨hpn, -⟩ | ⟨-, hlt⟩
      · left
        rw [ticks_of_pending_nil n _ hpn]
        exact hpn
      · rcases ih (tick r) (quiet_tick r hq) hw' with h | h
        · left; exact h
        · right; omega

/-- A run that has nothing deferred after some turns has reached its final
outcome. -/
theorem ticks_settled (bound n : Nat) (r : Run) (hq : Quiet r) (hw : Within bound r)
    (hne : r.pending ≠ []) (hp : (ticks n r).pending = []) : Settled (ticks n r) := by
  induction n generalizing r with
  | zero => exact absurd hp hne
  | succ n ih =>
    have hp' : (ticks n (tick r)).pending = [] := hp
    show Settled (ticks n (tick r))
    obtain ⟨hw', hcase⟩ := tick_step bound r hq hw hne
    rcases hcase with ⟨hpn, hs⟩ | ⟨hne', -⟩
    · rw [ticks_of_pending_nil n _ hpn]
      exact hs
    · exact ih (tick r) (quiet_tick r hq) hw' hne' hp'

/-- A run on a tree in which every function answers, for a path without
inherited names, has nothing deferred after twice its height and two turns, and
has reached its final outcome. -/
theorem ticks_terminate (t : Value) (path : List Value) (error : Value) (n : Nat)
    (hans : answersOnce t = true) (hown : ownSegments path = true)
    (hn : 2 * (height t + 1) ≤ n) :
    (ticks n (startRun t path error)).pending = [] ∧
    Settled (ticks n (startRun t path error)) := by
  have hq := quiet_startRun t path error
  have hw := within_startRun t path error hans hown
  have hp : (ticks n (startRun t path error)).pending = [] := by
    rcases ticks_potential (height t) n _ hq hw with h | h
    · exact h
    · by_contra hne
      have h1 := potential_pos (height t) _ hne
      have h2 := potential_startRun t path error
      omega
  exact ⟨hp, ticks_settled (height t) n _ hq hw
    (by simp [startRun, resolveNextTickGenerator]) hp⟩

/-- No turn brings the log of a run beyond one notification. -/
theorem ticks_emitted_le_one (n : Nat) (r : Run) (hq : Quiet r)
    (he : r.emitted.length ≤ 1) : (ticks n r).emitted.length ≤ 1 := by
  induction n generalizing r with
  | zero => exact he
  | succ n ih =>
    apply ih (tick r) (quiet_tick r hq)
    by_cases hne : r.pending = []
    · rw [tick_of_pending_nil r hne]; exact he
    · have hle := hq.pending_le
      cases hpd : r.pending with
      | nil => exact absurd hpd hne
      | cons v rest =>
        have hem : r.emitted = [] := hq.emitted_nil hne
        rw [tick_cons r v rest (hq.thrown_none hne) hpd]
        rcases resolveNextTick_kind v { r with pending := rest } with
          ⟨w, -, h2, -⟩ | ⟨ev, -, h2, -⟩ | ⟨x, -, h2, -⟩ | ⟨u, -, -, h2, -⟩
        · rw [h2]; exact he
        · rw [h2]
          show (r.emitted ++ [ev]).length ≤ 1
          rw [hem]; simp
        · rw [h2]; exact he
        · rw [h2]; exact he


/-! ## Bounded runs -/

/-- C20 (as stated, refuted): a container answers a key it does not own from
its prototype, and what it finds there is no part of the tree.  The empty
object is a tree without functions, of height `0`, so the bound is two turns.
With the path `['__proto__', 'hasOwnProperty']` the run visits the object, its
prototype and the member of the prototype: after two turns a step is still
deferred.  With the path `['constructor']` the run schedules the inherited
function, which returns without an answer: nothing is deferred after two turns
and the run never has an outcome, no notification and no fatal condition. -/
theorem run_inherited_exceeds_bound :
    functionFree (.obj []) = true ∧
    2 * (height (.obj []) + 1) = 2 ∧
    resolve (.obj []) (.obj [("path", .arr [.str "__proto__", .str "hasOwnProperty"])])
      = .ok (startRun (.obj []) [.str "__proto__", .str "hasOwnProperty"] .undefined) ∧
    (ticks 2 (startRun (.obj []) [.str "__proto__", .str "hasOwnProperty"]
      .undefined)).pending.length = 1 ∧
    (ticks 2 (startRun (.obj []) [.str "__proto__", .str "hasOwnProperty"]
      .undefined)).context.chain = [.obj [], objectPrototype] ∧
    resolve (.obj []) (.obj [("path", .arr [.str "constructor"])])
      = .ok (startRun (.obj []) [.str "constructor"] .undefined) ∧
    (∀ n, 2 ≤ n →
      (ticks n (startRun (.obj []) [.str "constructor"] .undefined)).pending = [] ∧
      (ticks n (startRun (.obj []) [.str "constructor"] .undefined)).emitted = [] ∧
      (ticks n (startRun (.obj []) [.str "constructor"] .undefined)).thrown = none) := by
  refine ⟨rfl, rfl, rfl, rfl, rfl, rfl, ?_⟩
  intro n hn
  obtain ⟨k, rfl⟩ := Nat.exists_eq_add_of_le hn
  have h2 : (ticks 2 (startRun (.obj []) [.str "constructor"] .undefined)).pending = [] :=
    rfl
  rw [ticks_add, ticks_of_pending_nil _ _ h2]
  exact ⟨rfl, rfl, rfl⟩

/-- C20 (amended): a run started by `resolve` on a tree without functions, for
a descriptor whose path has no segment that names a member containers inherit
from their prototype, has no step left after `2 * (h + 1)` turns, `h` being the
height of the tree, and has then reached its final outcome, one notification or
a fatal condition; no later turn changes anything.  The measure: no turn brings
an inherited name onto the path, so every step schedules nothing, or a
component of its target with the recorded error unchanged, or, on a failure
that finds no error recorded, the handler of a visited value, which records the
error; and a recorded error stays recorded, so a handler is scheduled at most
once. -/
theorem run_terminates (t context : Value) (r0 : Run) (n : Nat)
    (hstart : resolve t context = .ok r0) (hfree : functionFree t = true)
    (hown : ownSegments r0.context.path = true)
    (hn : 2 * (height t + 1) ≤ n) :
    (ticks n r0).pending = [] ∧
    Settled (ticks n r0) ∧
    ticks n r0 = ticks (2 * (height t + 1)) r0 ∧
    (∀ k : Nat, ownSegments (ticks k r0).context.path = true) ∧
    (∀ (k : Nat) (v : Value) (rest : List Value), (ticks k r0).pending = v :: rest →
      StepKind v (ticks k r0).context.path
        ⟨⟨(ticks k r0).context.path, (ticks k r0).context.chain ++ [v],
          (ticks k r0).context.error⟩, rest, (ticks k r0).emitted, (ticks k r0).thrown⟩
        (ticks (k + 1) r0)) ∧
    (∀ k d : Nat, typeOf (ticks k r0).context.error = "object" →
      typeOf (ticks (k + d) r0).context.error = "object") := by
  obtain ⟨path, error, rfl⟩ := resolve_ok t context r0 hstart
  have hown' : ownSegments path = true := hown
  have hans := answersOnce_of_functionFree t hfree
  obtain ⟨hp, hs⟩ := ticks_terminate t path error n hans hown' hn
  obtain ⟨hp0, -⟩ :=
    ticks_terminate t path error (2 * (height t + 1)) hans hown' (Nat.le_refl _)
  refine ⟨hp, hs, ?_, ?_, ?_, ?_⟩
  · obtain ⟨d, rfl⟩ := Nat.exists_eq_add_of_le hn
    rw [ticks_add, ticks_of_pending_nil _ _ hp0]
  · intro k
    exact ownSegments_ticks k _ hown
  · intro k v rest hpk
    have hq := quiet_ticks k _ (quiet_startRun t path error)
    have hne : (ticks k (startRun t path error)).pending ≠ [] := by simp [hpk]
    rw [ticks_succ, tick_cons _ v rest (hq.thrown_none hne) hpk]
    exact resolveNextTick_kind v _
  · intro k d hrec
    rw [ticks_add, ticks_error_of_recorded d _ hrec]
    exact hrec

/-- C20 (amended) at a concrete input: the sample tree, of height two, with the
path `['foo', 'yam']`, after six turns. -/
theorem run_terminates_witness :
    (ticks 6 (startRun sample [.str "foo", .str "yam"] .undefined)).pending = [] :=
  (run_terminates sample (.obj [("path", .arr [.str "foo", .str "yam"])])
    (startRun sample [.str "foo", .str "yam"] .undefined) 6 rfl rfl rfl (by decide)).1

/-! ## One notification -/

/-- C15 (as stated, refuted): two runs on trees without functions that end
without any notification.  The run of `{a: true}` with the path `['a']`: the
child `true` is present, so it is scheduled, and its step finds no member of
the module for the type `'boolean'`; the run ends with a `TypeError` thrown, and
no error has been recorded, so this is not the second failure of a run.  The
run of `{a: 'x'}` with the path `['constructor']`: the object answers the key
from its prototype with the built-in function `Object`, which is scheduled and
returns without calling the completion callback; nothing is thrown either. -/
theorem run_without_notification :
    answersOnce (.obj [("a", .bool true)]) = true ∧
    resolve (.obj [("a", .bool true)]) (.obj [("path", .arr [.str "a"])])
      = .ok (startRun (.obj [("a", .bool true)]) [.str "a"] .undefined) ∧
    (ticks 2 (startRun (.obj [("a", .bool true)]) [.str "a"] .undefined)).emitted = [] ∧
    (ticks 2 (startRun (.obj [("a", .bool true)]) [.str "a"] .undefined)).thrown
      = some typeError ∧
    (ticks 2 (startRun (.obj [("a", .bool true)]) [.str "a"] .undefined)).pending = [] ∧
    (ticks 2 (startRun (.obj [("a", .bool true)]) [.str "a"] .undefined)).context.error
      = .undefined ∧
    (ticks 9 (startRun (.obj [("a", .bool true)]) [.str "a"] .undefined)).emitted = [] ∧
    answersOnce (.obj [("a", .str "x")]) = true ∧
    functionFree (.obj [("a", .str "x")]) = true ∧
    resolve (.obj [("a", .str "x")]) (.obj [("path", .arr [.str "constructor"])])
      = .ok (startRun (.obj [("a", .str "x")]) [.str "constructor"] .undefined) ∧
    (ticks 2 (startRun (.obj [("a", .str "x")]) [.str "constructor"] .undefined)).emitted = [] ∧
    (ticks 2 (startRun (.obj [("a", .str "x")]) [.str "constructor"] .undefined)).thrown
      = none ∧
    (ticks 2 (startRun (.obj [("a", .str "x")]) [.str "constructor"] .undefined)).pending = [] ∧
    (ticks 9 (startRun (.obj [("a", .str "x")]) [.str "constructor"] .undefined)).emitted = [] :=
  ⟨rfl, rfl, rfl, rfl, rfl, rfl, rfl, rfl, rfl, rfl, rfl, rfl, rfl, rfl⟩

/-- C15 (amended): (1) no run started by `resolve` ever has more than one
notification in its log.  (2) A run on a tree in which every function answers
once, by a call of the completion callback or by a throw, for a path with no
segment that names a member containers inherit from their prototype, has no
step left after `2 * (h + 1)` turns, `h` being the height of the tree, and from
then on its state does not change: either exactly one notification has been
emitted, `'end'` or `'error'`, and nothing thrown, or the run has ended in a
fatal condition with no notification, the thrown value being the error that met
a recorded one or the `TypeError` of a target outside the categories. -/
theorem run_notifies_once :
    (∀ (t context : Value) (r0 : Run) (n : Nat), resolve t context = .ok r0 →
      (ticks n r0).emitted.length ≤ 1) ∧
    (∀ (t context : Value) (r0 : Run) (n : Nat), resolve t context = .ok r0 →
      answersOnce t = true → ownSegments r0.context.path = true →
      2 * (height t + 1) ≤ n →
      (ticks n r0).pending = [] ∧
      (((ticks n r0).thrown = none ∧
          ∃ ev, (ticks n r0).emitted = [ev] ∧ (ev.name = "end" ∨ ev.name = "error")) ∨
       (∃ x, (ticks n r0).thrown = some x ∧ (ticks n r0).emitted = [] ∧
          (x = typeError ∨ typeOf (ticks n r0).context.error = "object"))) ∧
      ∀ m, ticks (n + m) r0 = ticks n r0) := by
  constructor
  · intro t context r0 n hstart
    obtain ⟨path, error, rfl⟩ := resolve_ok t context r0 hstart
    exact ticks_emitted_le_one n _ (quiet_startRun t path error) (by
      simp [startRun, resolveNextTickGenerator])
  · intro t context r0 n hstart hans hown hn
    obtain ⟨path, error, rfl⟩ := resolve_ok t context r0 hstart
    obtain ⟨hp, hs⟩ := ticks_terminate t path error n hans hown hn
    refine ⟨hp, hs, fun m => ?_⟩
    rw [ticks_add, ticks_of_pending_nil _ _ hp]

/-- C15 (amended) at a concrete input: the run of `{a: {b: <throws X>, $error:
<completes with 'Recovered'>}}` with the path `['a', 'b']`, a tree of height
three, after eight turns. -/
theorem run_notifies_once_witness :
    (ticks 8 (startRun (rootThrowing (.error "X")) [.str "a", .str "b"]
      .undefined)).pending = [] :=
  (run_notifies_once.2 (rootThrowing (.error "X"))
    (.obj [("path", .arr [.str "a", .str "b"])])
    (startRun (rootThrowing (.error "X")) [.str "a", .str "b"] .undefined) 8
    rfl rfl rfl (by decide)).1

end Deduce
